import Mathlib

set_option maxRecDepth 16000

/- Verification development for the BlackRoad Terraform module registry
   (`terraform_modules.py`).  The registry's rendering, validation, planning,
   version-bump and persistence logic is embedded shallowly over `List Char`
   as the text type, mirroring the Python source operation by operation. -/

/-- Text is modelled as a list of characters; Python `str` values map to it. -/
abbrev Str := List Char

/-- The literal character `{` (written via its code to keep string literals plain). -/
def openBrace : Char := '\x7b'

/-- The literal character `}`. -/
def closeBrace : Char := '\x7d'

/-- Characters stripped by Python `str.strip()` / treated as whitespace by
`str.split()` (the `str.isspace` set). -/
def isPySpace (c : Char) : Bool :=
  [' ', '\t', '\n', '\r', '\x0b', '\x0c', '\x1c', '\x1d', '\x1e', '\x85',
   '\xa0', '\u1680', '\u2000', '\u2001', '\u2002', '\u2003', '\u2004',
   '\u2005', '\u2006', '\u2007', '\u2008', '\u2009', '\u200a', '\u2028',
   '\u2029', '\u202f', '\u205f', '\u3000'].contains c

/-- Whitespace for the regex class `\s` (Python `re`, which additionally
includes `\x1f` compared to `str.isspace`). -/
def reSpace (c : Char) : Bool :=
  isPySpace c || c = '\x1f'

/-- Line-boundary characters of Python `str.splitlines` other than `\r`
(which is treated separately because of the `\r\n` pairing). -/
def isLineBreakChar (c : Char) : Bool :=
  ['\n', '\x0b', '\x0c', '\x1c', '\x1d', '\x1e', '\x85', '\u2028',
   '\u2029'].contains c

/-- The regex class `\w`, restricted to ASCII (the templates in this
repository use only ASCII identifiers). -/
def isWordChar (c : Char) : Bool :=
  c.isAlpha || c.isDigit || c = '_'

/-- The regex class `[\w-]`, restricted to ASCII. -/
def isWordHyphen (c : Char) : Bool :=
  isWordChar c || c = '-'

/-- Python `str.strip()`: drop leading and trailing whitespace. -/
def pyStrip (s : Str) : Str :=
  ((s.dropWhile isPySpace).reverse.dropWhile isPySpace).reverse

/-- Worker for `pySplitLines`; `acc` holds the current line reversed. -/
def pySplitLinesAux : Str → Str → List Str
  | acc, [] => [acc.reverse]
  | acc, '\r' :: '\n' :: rest =>
      acc.reverse :: (if rest.isEmpty then [] else pySplitLinesAux [] rest)
  | acc, '\r' :: rest =>
      acc.reverse :: (if rest.isEmpty then [] else pySplitLinesAux [] rest)
  | acc, c :: rest =>
      if isLineBreakChar c then
        acc.reverse :: (if rest.isEmpty then [] else pySplitLinesAux [] rest)
      else
        pySplitLinesAux (c :: acc) rest

/-- Python `str.splitlines()`: split at line boundaries (`\n`, `\r`, `\r\n`,
and the other Unicode line-break characters), with no trailing empty line. -/
def pySplitLines (s : Str) : List Str :=
  if s.isEmpty then [] else pySplitLinesAux [] s

/-- Worker for `pySplit`; `acc` holds the current word reversed. -/
def pySplitAux : Str → Str → List Str
  | acc, [] => if acc.isEmpty then [] else [acc.reverse]
  | acc, c :: rest =>
      if isPySpace c then
        if acc.isEmpty then pySplitAux [] rest
        else acc.reverse :: pySplitAux [] rest
      else
        pySplitAux (c :: acc) rest

/-- Python `str.split()` with no arguments: split on whitespace runs,
discarding empty fields. -/
def pySplit (s : Str) : List Str :=
  pySplitAux [] s

/-- Worker for `splitOnChar`; `acc` holds the current field reversed. -/
def splitOnCharAux (sep : Char) : Str → Str → List Str
  | acc, [] => [acc.reverse]
  | acc, c :: rest =>
      if c = sep then acc.reverse :: splitOnCharAux sep [] rest
      else splitOnCharAux sep (c :: acc) rest

/-- Python `str.split(sep)` for a single-character separator (keeps empty
fields, as Python does). -/
def splitOnChar (sep : Char) (s : Str) : List Str :=
  splitOnCharAux sep [] s

/-- Fuel-driven worker for `replaceAll`.  Scans left to right; on a match the
replacement is emitted and scanning resumes after the matched occurrence,
exactly like Python `str.replace`. -/
def replFuel (pat repl : Str) : Nat → Str → Str
  | 0, s => s
  | _ + 1, [] => []
  | fuel + 1, c :: cs =>
      if pat.isPrefixOf (c :: cs) then
        repl ++ replFuel pat repl fuel ((c :: cs).drop pat.length)
      else
        c :: replFuel pat repl fuel cs

/-- Python `str.replace(pat, repl)` for a non-empty pattern: replace every
(leftmost, non-overlapping) occurrence.  The registry only ever replaces the
non-empty placeholder patterns, so the empty pattern is mapped to the
identity. -/
def replaceAll (pat repl s : Str) : Str :=
  if pat.isEmpty then s else replFuel pat repl s.length s

/-- The decimal digit characters. -/
def digitChar : Nat → Char
  | 0 => '0'
  | 1 => '1'
  | 2 => '2'
  | 3 => '3'
  | 4 => '4'
  | 5 => '5'
  | 6 => '6'
  | 7 => '7'
  | 8 => '8'
  | _ => '9'

/-- Fuel-driven worker for `natRepr`. -/
def natReprAux : Nat → Nat → Str
  | 0, _ => []
  | fuel + 1, n =>
      if n < 10 then [digitChar n]
      else natReprAux fuel (n / 10) ++ [digitChar (n % 10)]

/-- Decimal representation of a natural number (Python `str(n)` for `n ≥ 0`). -/
def natRepr (n : Nat) : Str :=
  natReprAux (n + 1) n

/-- Decimal representation of an integer (Python `str(i)`). -/
def intRepr (i : Int) : Str :=
  if i < 0 then '-' :: natRepr i.natAbs else natRepr i.toNat

/-- Numeric value of a digit string. -/
def digitsVal (s : Str) : Nat :=
  s.foldl (fun a c => a * 10 + (c.toNat - 48)) 0

/-- Parse a non-empty all-digit string. -/
def pyIntDigits (s : Str) : Option Nat :=
  if s.isEmpty then none
  else if s.all Char.isDigit then some (digitsVal s) else none

/-- Python `int(s)` on the decimal strings this repository produces: optional
surrounding whitespace, an optional sign, then decimal digits.  (Underscore
separators and non-ASCII digits, which Python would also accept, are outside
the model.) -/
def pyInt (s : Str) : Option Int :=
  match pyStrip s with
  | '-' :: r => (pyIntDigits r).map (fun n => -(n : Int))
  | '+' :: r => (pyIntDigits r).map (fun n => (n : Int))
  | r => (pyIntDigits r).map (fun n => (n : Int))

/- ── Dynamic values ──────────────────────────────────────────────
   Variable defaults and caller-supplied values are Python objects; the
   registry's seed data and tests use strings, ints and bools, so the value
   domain is modelled by that tagged union (spec §9 asks for exactly such a
   variant type). -/

/-- A dynamic (Python) value as stored in variable defaults and supplied by
callers: a string, an integer, or a boolean. -/
inductive Value where
  | vStr (s : Str)
  | vNum (n : Int)
  | vBool (b : Bool)
deriving DecidableEq, Repr

/-- Python `str(value)`: the natural string form used during substitution
(`str("x") = "x"`, `str(20) = "20"`, `str(True) = "True"`). -/
def pyStr : Value → Str
  | .vStr s => s
  | .vNum n => intRepr n
  | .vBool true => ("True").data
  | .vBool false => ("False").data

/-- The placeholder token for variable `k`: the text `${var.k}`. -/
def placeholder (k : Str) : Str :=
  ("$\x7bvar.").data ++ k ++ [closeBrace]

/- ── Python dicts as association lists ───────────────────────────
   A dict is modelled as an association list in insertion order;
   `dictInsert` mirrors `d[k] = v` (overwrite in place, else append), so
   folding it over a pair list reproduces `dict(pairs)` / `d.update(pairs)`
   exactly, including key order. -/

/-- `k in d` for a dict. -/
def dictHas (d : List (Str × α)) (k : Str) : Bool :=
  d.any (fun kv => kv.1 = k)

/-- `d[k] = v`: overwrite the existing entry in place, else append. -/
def dictInsert (d : List (Str × α)) (k : Str) (v : α) : List (Str × α) :=
  if dictHas d k then
    d.map (fun kv => if kv.1 = k then (k, v) else kv)
  else
    d ++ [(k, v)]

/-- `d.update(kvs)`: insert every pair in order. -/
def dictUpdate (d : List (Str × α)) (kvs : List (Str × α)) : List (Str × α) :=
  kvs.foldl (fun d kv => dictInsert d kv.1 kv.2) d

/-- `d.get(k)`: the value stored under `k`. -/
def dictGet (d : List (Str × α)) (k : Str) : Option α :=
  (d.find? (fun kv => kv.1 = k)).map (fun kv => kv.2)

/-- The keys of a dict. -/
def dictKeys (d : List (Str × α)) : List Str :=
  d.map (fun kv => kv.1)

/- ── Data model (`@dataclass` definitions of the source) ───────── -/

/-- `TerraformVariable`: a typed template variable. -/
structure TerraformVariable where
  name : Str
  type : Str
  description : Str := []
  default : Option Value := none
  required : Bool := true
  sensitive : Bool := false
deriving DecidableEq, Repr

/-- `TerraformOutput`: an output declaration. -/
structure TerraformOutput where
  name : Str
  description : Str := []
  value_expression : Str := []
  sensitive : Bool := false
deriving DecidableEq, Repr

/-- `TerraformExample`: a documentary example. -/
structure TerraformExample where
  title : Str
  description : Str := []
  hcl_code : Str := []
deriving DecidableEq, Repr

/-- `TerraformModule`: a registered module record. -/
structure TerraformModule where
  id : Str
  name : Str
  provider : Str
  resource_type : Str
  version : Str
  description : Str
  hcl_template : Str
  «variables» : List TerraformVariable := []
  outputs : List TerraformOutput := []
  examples : List TerraformExample := []
  tags : List Str := []
  created_at : Str := []
  download_count : Int := 0
deriving DecidableEq, Repr

/-- `ValidationResult`: validity flag plus ordered error and warning lists. -/
structure ValidationResult where
  valid : Bool
  errors : List Str := []
  warnings : List Str := []
deriving DecidableEq, Repr

/-- `TerraformModule.bump_version`: parse the three-component version with
`map(int, version.split("."))`, increment the selected component zeroing the
less-significant ones (any selector other than `major`/`minor` means
`patch`), store the new string and return it.  A non-three-component or
non-numeric version raises in Python and is `none` here. -/
def bumpVersion (mod : TerraformModule) (part : Str) : Option (Str × TerraformModule) :=
  match (splitOnChar '.' mod.version).mapM pyInt with
  | some [major, minor, patch] =>
      let t : Int × Int × Int :=
        if part = ("major").data then (major + 1, 0, 0)
        else if part = ("minor").data then (major, minor + 1, 0)
        else (major, minor, patch + 1)
      let v := intRepr t.1 ++ ('.' :: intRepr t.2.1) ++ ('.' :: intRepr t.2.2)
      some (v, { mod with version := v })
  | _ => none

/- ── Structural validator (`TerraformRegistry.validate_hcl`) ────── -/

/-- Error message of the brace-balance check. -/
def msgUnbalancedBraces : Str := ("Unbalanced curly braces \x7b \x7d").data

/-- Error message of the bracket-balance check. -/
def msgUnbalancedBrackets : Str := ("Unbalanced square brackets [ ]").data

/-- Error message of the parenthesis-balance check. -/
def msgUnbalancedParens : Str := ("Unbalanced parentheses ( )").data

/-- Warning used when no declaration block is found. -/
def msgNoBlock : Str :=
  ("No resource/data/module block found — is this intentional?").data

/-- The resource-label error naming the offending (stripped) line. -/
def msgMissingLabels (rl : Str) : Str :=
  ("resource block missing labels: '").data ++ rl ++ [('\'' : Char)]

/-- The suspicious-interpolation warning quoting the matched text. -/
def msgSuspicious (br : Str) : Str :=
  ("Suspicious interpolation (not var/local/module/data): ").data ++ br

/-- Warning for the `$${` escape artifact. -/
def msgDoubleDollar : Str :=
  ("Found $$\x7b\x7d — use $$\x7b only for literal dollar sign escape").data

/-- Error message of the emptiness check. -/
def msgEmpty : Str := ("HCL string is empty").data

/-- The keywords of the block-presence regex
`\b(resource|data|module|locals|provider|terraform)\s+"[\w-]+"\s*`. -/
def blockKeywords : List Str :=
  [("resource").data, ("data").data, ("module").data, ("locals").data,
   ("provider").data, ("terraform").data]

/-- After a block keyword: `\s+"[\w-]+"` (the trailing `\s*` always
matches). -/
def afterKeywordMatches (r : Str) : Bool :=
  let r1 := r.dropWhile reSpace
  decide (r1.length < r.length) &&
    match r1 with
    | '"' :: r2 =>
        let w := r2.takeWhile isWordHyphen
        !w.isEmpty &&
          match r2.drop w.length with
          | '"' :: _ => true
          | _ => false
    | _ => false

/-- Does the block-presence pattern match at this position (given the
preceding character, for the `\b` boundary)? -/
def blockPatternAt (prev : Option Char) (s : Str) : Bool :=
  (match prev with
   | none => true
   | some p => !isWordChar p) &&
  blockKeywords.any (fun kw => kw.isPrefixOf s && afterKeywordMatches (s.drop kw.length))

/-- Worker for `existsBlockPattern`: try every position, tracking the
previous character. -/
def existsBlockPatternAux : Option Char → Str → Bool
  | _, [] => false
  | prev, c :: cs =>
      blockPatternAt prev (c :: cs) || existsBlockPatternAux (some c) cs

/-- `re.search` of the block-presence pattern: does it match anywhere? -/
def existsBlockPattern (s : Str) : Bool :=
  existsBlockPatternAux none s

/-- The stripped source lines that start with `resource` (a plain string
prefix test, as in the source's `l.strip().startswith("resource")`). -/
def resourceLines (s : Str) : List Str :=
  (pySplitLines s).filterMap (fun l =>
    let ls := pyStrip l
    if ("resource").data.isPrefixOf ls then some ls else none)

/-- The recognised interpolation namespaces of the suspicious-reference
pattern. -/
def goodRefNamespaces : List Str :=
  [("var.").data, ("local.").data, ("module.").data, ("data.").data,
   ("each.").data, ("path.").data, ("terraform.").data]

/-- Try the pattern `\$\{(?!var\.|local\.|module\.|data\.|each\.|path\.|terraform\.)[^}]+\}`
at the head of `s`; on success return the whole match and the rest. -/
def badRefAt (s : Str) : Option (Str × Str) :=
  match s with
  | '$' :: c :: r =>
      if c = openBrace then
        if goodRefNamespaces.any (fun ns => ns.isPrefixOf r) then none
        else
          let body := r.takeWhile (fun c => !(c = closeBrace))
          if body.isEmpty then none
          else
            match r.drop body.length with
            | '\x7d' :: rest => some ('$' :: openBrace :: body ++ [closeBrace], rest)
            | _ => none
      else none
  | _ => none

/-- Fuel-driven worker for `findBadRefs` (leftmost, non-overlapping, like
`re.findall`). -/
def findBadRefsAux : Nat → Str → List Str
  | 0, _ => []
  | fuel + 1, s =>
      match badRefAt s with
      | some (m, rest) => m :: findBadRefsAux fuel rest
      | none =>
          match s with
          | [] => []
          | _ :: cs => findBadRefsAux fuel cs

/-- `re.findall` of the suspicious-interpolation pattern. -/
def findBadRefs (s : Str) : List Str :=
  findBadRefsAux s.length s

/-- Does `$${` occur anywhere (the `\$\$\{` pattern)? -/
def hasDoubleDollar : Str → Bool
  | [] => false
  | c :: cs =>
      (c = '$' && ('$' :: openBrace :: []).isPrefixOf cs) || hasDoubleDollar cs

/-- `TerraformRegistry.validate_hcl`: heuristic structural validation.
Errors, in order: the three balance checks, the resource-label check per
offending line, and the emptiness check; warnings: block presence,
suspicious interpolations, `$${` artifact.  Valid iff no errors. -/
def validateHcl (s : Str) : ValidationResult :=
  let e1 := if s.count openBrace ≠ s.count closeBrace then [msgUnbalancedBraces] else []
  let e2 := if s.count '[' ≠ s.count ']' then [msgUnbalancedBrackets] else []
  let e3 := if s.count '(' ≠ s.count ')' then [msgUnbalancedParens] else []
  let w1 := if existsBlockPattern s then [] else [msgNoBlock]
  let e4 := (resourceLines s).filterMap (fun rl =>
    if (pySplit rl).length < 3 then some (msgMissingLabels rl) else none)
  let w2 := (findBadRefs s).map msgSuspicious
  let w3 := if hasDoubleDollar s then [msgDoubleDollar] else []
  let e5 := if (pyStrip s).isEmpty then [msgEmpty] else []
  let errors := e1 ++ e2 ++ e3 ++ e4 ++ e5
  { valid := errors.isEmpty, errors := errors, warnings := w1 ++ w2 ++ w3 }

/- ── Substitution engine (`TerraformRegistry.generate_tf`, pure part) ── -/

/-- The missing required variables: `required` true, `default` absent, no
caller-supplied entry — in declaration order, all of them. -/
def missingVars (mod : TerraformModule) (vars : List (Str × Value)) : List Str :=
  (mod.variables.filter (fun v =>
    v.required && v.default.isNone && !dictHas vars v.name)).map (fun v => v.name)

/-- The defaults table: every variable's default value (when present), in
declaration order, with dict-insert semantics. -/
def defaultsTable (vs : List TerraformVariable) : List (Str × Value) :=
  vs.foldl (fun d v =>
    match v.default with
    | some dv => dictInsert d v.name dv
    | none => d) []

/-- The merged value table: defaults overlaid by the caller-supplied values
(`merged.update(vars)`): caller values win, new keys are appended. -/
def mergedTable (mod : TerraformModule) (vars : List (Str × Value)) : List (Str × Value) :=
  dictUpdate (defaultsTable mod.variables) vars

/-- Substitute every entry of the merged table into the template, in table
order: replace each literal occurrence of `${var.k}` with the value's string
form. -/
def substituteAll (tpl : Str) (merged : List (Str × Value)) : Str :=
  merged.foldl (fun acc kv => replaceAll (placeholder kv.1) (pyStr kv.2) acc) tpl

/-- Registry errors: the Python exceptions raised by the registry
(`KeyError` on an unknown reference, `ValueError` for provider / template /
missing-variable failures, `sqlite3.IntegrityError` for a name conflict, and
a decode failure for unreadable stored JSON). -/
inductive RegError where
  | notFound
  | decodeError
  | invalidProvider
  | invalidTemplate
  | nameConflict
  | missingRequired (names : List Str)
deriving DecidableEq, Repr

/-- The pure part of `generate_tf` on an already-resolved module: fail with
the full list of missing required variables, else substitute the merged
table into the template. -/
def generateTfPure (mod : TerraformModule) (vars : List (Str × Value)) :
    Except RegError Str :=
  let missing := missingVars mod vars
  if missing.isEmpty then
    .ok (substituteAll mod.hcl_template (mergedTable mod vars))
  else
    .error (.missingRequired missing)

/- ── JSON serialization of stored collections ────────────────────
   `TerraformRegistry._save` stores the collection-valued fields as JSON
   text (`json.dumps` of `asdict` records) and `_row_to_module` re-parses
   them (`json.loads`).  `json` is standard-library code, modelled here for
   the flat record shapes this registry stores (spec §6: "JSON arrays of
   flat records"); the encoder keeps non-ASCII characters literal where
   `json.dumps` would escape them, which `json.loads` treats identically. -/

/-- A scalar JSON value: the leaves occurring in the registry's records. -/
inductive JScalar where
  | jnull
  | jbool (b : Bool)
  | jint (n : Int)
  | jstr (s : Str)
deriving DecidableEq, Repr

/-- Lower-case hexadecimal digit characters (as `json.dumps` emits). -/
def hexDigitChar : Nat → Char
  | 0 => '0'
  | 1 => '1'
  | 2 => '2'
  | 3 => '3'
  | 4 => '4'
  | 5 => '5'
  | 6 => '6'
  | 7 => '7'
  | 8 => '8'
  | 9 => '9'
  | 10 => 'a'
  | 11 => 'b'
  | 12 => 'c'
  | 13 => 'd'
  | 14 => 'e'
  | _ => 'f'

/-- JSON escape of one character inside a string literal. -/
def escChar (c : Char) : Str :=
  if c = '"' then ['\\', '"']
  else if c = '\\' then ['\\', '\\']
  else if c = '\n' then ['\\', 'n']
  else if c = '\t' then ['\\', 't']
  else if c = '\r' then ['\\', 'r']
  else if c = '\x08' then ['\\', 'b']
  else if c = '\x0c' then ['\\', 'f']
  else if c.toNat < 32 then
    ['\\', 'u', '0', '0', hexDigitChar (c.toNat / 16), hexDigitChar (c.toNat % 16)]
  else [c]

/-- JSON escape of a whole string body. -/
def escapeStr (s : Str) : Str :=
  s.foldr (fun c acc => escChar c ++ acc) []

/-- A JSON string literal. -/
def encodeJStr (s : Str) : Str :=
  '"' :: escapeStr s ++ ['"']

/-- A JSON scalar literal. -/
def encodeScalar : JScalar → Str
  | .jnull => ("null").data
  | .jbool true => ("true").data
  | .jbool false => ("false").data
  | .jint n => intRepr n
  | .jstr s => encodeJStr s

/-- Join with a separator (`", "` between array items and object members,
`": "` after keys — the `json.dumps` defaults). -/
def intercalateSep (sep : Str) : List Str → Str
  | [] => []
  | [x] => x
  | x :: xs => x ++ sep ++ intercalateSep sep xs

/-- One encoded object member (`"key": value`). -/
def memberEnc (kv : Str × JScalar) : Str :=
  encodeJStr kv.1 ++ ((": ").data) ++ encodeScalar kv.2

/-- The joined member text of a flat object. -/
def membersText (ms : List (Str × JScalar)) : Str :=
  intercalateSep ((", ").data) (ms.map memberEnc)

/-- A flat JSON object with scalar values. -/
def encodeFlatObj (ms : List (Str × JScalar)) : Str :=
  openBrace :: membersText ms ++ [closeBrace]

/-- The joined object text of an object array. -/
def objsText (l : List (List (Str × JScalar))) : Str :=
  intercalateSep ((", ").data) (l.map encodeFlatObj)

/-- A JSON array of flat objects. -/
def encodeObjArr (l : List (List (Str × JScalar))) : Str :=
  '[' :: objsText l ++ [']']

/-- The joined string text of a string array. -/
def strsText (l : List Str) : Str :=
  intercalateSep ((", ").data) (l.map encodeJStr)

/-- A JSON array of strings. -/
def encodeStrArr (l : List Str) : Str :=
  '[' :: strsText l ++ [']']

/-- JSON whitespace accepted between tokens by `json.loads`. -/
def jsonWs (c : Char) : Bool :=
  [' ', '\t', '\n', '\r'].contains c

/-- Skip JSON whitespace. -/
def skipWs (s : Str) : Str :=
  s.dropWhile jsonWs

/-- Value of one hexadecimal digit character. -/
def hexVal (c : Char) : Option Nat :=
  if c.isDigit then some (c.toNat - 48)
  else if 97 ≤ c.toNat ∧ c.toNat ≤ 102 then some (c.toNat - 87)
  else if 65 ≤ c.toNat ∧ c.toNat ≤ 70 then some (c.toNat - 55)
  else none

/-- Parse a JSON string body after the opening quote, handling the escape
sequences; surrogate pairs (which the registry never stores) are outside the
model. -/
def parseJStrBody : Nat → Str → Option (Str × Str)
  | 0, _ => none
  | fuel + 1, s =>
      match s with
      | [] => none
      | c :: rest =>
          if c = '"' then some ([], rest)
          else if c = '\\' then
            match rest with
            | [] => none
            | e :: rest2 =>
                if e = '"' then (parseJStrBody fuel rest2).map (fun p => ('"' :: p.1, p.2))
                else if e = '\\' then
                  (parseJStrBody fuel rest2).map (fun p => ('\\' :: p.1, p.2))
                else if e = '/' then
                  (parseJStrBody fuel rest2).map (fun p => ('/' :: p.1, p.2))
                else if e = 'n' then
                  (parseJStrBody fuel rest2).map (fun p => ('\n' :: p.1, p.2))
                else if e = 't' then
                  (parseJStrBody fuel rest2).map (fun p => ('\t' :: p.1, p.2))
                else if e = 'r' then
                  (parseJStrBody fuel rest2).map (fun p => ('\r' :: p.1, p.2))
                else if e = 'b' then
                  (parseJStrBody fuel rest2).map (fun p => ('\x08' :: p.1, p.2))
                else if e = 'f' then
                  (parseJStrBody fuel rest2).map (fun p => ('\x0c' :: p.1, p.2))
                else if e = 'u' then
                  match rest2 with
                  | h1 :: h2 :: h3 :: h4 :: rest3 =>
                      match hexVal h1, hexVal h2, hexVal h3, hexVal h4 with
                      | some a, some b, some c, some d =>
                          (parseJStrBody fuel rest3).map
                            (fun p =>
                              (Char.ofNat (((a * 16 + b) * 16 + c) * 16 + d) :: p.1, p.2))
                      | _, _, _, _ => none
                  | _ => none
                else none
          else (parseJStrBody fuel rest).map (fun p => (c :: p.1, p.2))

/-- Is the head a float marker (`.`/`e`/`E`)?  Stored records only contain
integers, so floats are outside the model and rejected. -/
def headIsFloatMark : Str → Bool
  | [] => false
  | c :: _ => c = '.' || c = 'e' || c = 'E'

/-- Parse a run of decimal digits as a natural number. -/
def parseJNat (s : Str) : Option (Nat × Str) :=
  let ds := s.takeWhile Char.isDigit
  let rest := s.drop ds.length
  if ds.isEmpty then none
  else if headIsFloatMark rest then none
  else some (digitsVal ds, rest)

/-- Parse one scalar JSON value at the head of the input. -/
def parseScalar (s : Str) : Option (JScalar × Str) :=
  match s with
  | [] => none
  | c :: rest =>
      if c = '"' then
        (parseJStrBody (rest.length + 1) rest).map (fun p => (.jstr p.1, p.2))
      else if c = 'n' then
        if ("ull").data.isPrefixOf rest then some (.jnull, rest.drop 3) else none
      else if c = 't' then
        if ("rue").data.isPrefixOf rest then some (.jbool true, rest.drop 3) else none
      else if c = 'f' then
        if ("alse").data.isPrefixOf rest then some (.jbool false, rest.drop 4) else none
      else if c = '-' then
        (parseJNat rest).map (fun p => (.jint (-(p.1 : Int)), p.2))
      else if c.isDigit then
        (parseJNat (c :: rest)).map (fun p => (.jint (p.1 : Int), p.2))
      else none

/-- Parse the members of a flat object (positioned at the first key). -/
def parseMembers : Nat → Str → Option (List (Str × JScalar) × Str)
  | 0, _ => none
  | fuel + 1, s =>
      match s with
      | '"' :: rest =>
          match parseJStrBody (rest.length + 1) rest with
          | some (key, r1) =>
              match skipWs r1 with
              | ':' :: r2 =>
                  match parseScalar (skipWs r2) with
                  | some (v, r3) =>
                      match skipWs r3 with
                      | ',' :: r4 =>
                          (parseMembers fuel (skipWs r4)).map (fun p => ((key, v) :: p.1, p.2))
                      | c :: r4 =>
                          if c = closeBrace then some ([(key, v)], r4) else none
                      | [] => none
                  | none => none
              | _ => none
          | none => none
      | _ => none

/-- Parse a flat JSON object (scalar values only — the shape of the
registry's records). -/
def parseFlatObj (fuel : Nat) (s : Str) : Option (List (Str × JScalar) × Str) :=
  match s with
  | c :: rest =>
      if c = openBrace then
        match skipWs rest with
        | c2 :: r2 => if c2 = closeBrace then some ([], r2) else parseMembers fuel (c2 :: r2)
        | [] => none
      else none
  | [] => none

/-- Parse the elements of an array of flat objects. -/
def parseObjArrElems : Nat → Str → Option (List (List (Str × JScalar)) × Str)
  | 0, _ => none
  | fuel + 1, s =>
      match parseFlatObj fuel s with
      | some (obj, r1) =>
          match skipWs r1 with
          | ',' :: r2 => (parseObjArrElems fuel (skipWs r2)).map (fun p => (obj :: p.1, p.2))
          | c :: r2 => if c = ']' then some ([obj], r2) else none
          | [] => none
      | none => none

/-- Parse a JSON array of flat objects. -/
def parseObjArr (fuel : Nat) (s : Str) : Option (List (List (Str × JScalar)) × Str) :=
  match s with
  | '[' :: rest =>
      match skipWs rest with
      | ']' :: r => some ([], r)
      | s1 => parseObjArrElems fuel s1
  | _ => none

/-- Parse the elements of an array of strings. -/
def parseStrArrElems : Nat → Str → Option (List Str × Str)
  | 0, _ => none
  | fuel + 1, s =>
      match s with
      | '"' :: rest =>
          match parseJStrBody (rest.length + 1) rest with
          | some (x, r1) =>
              match skipWs r1 with
              | ',' :: r2 => (parseStrArrElems fuel (skipWs r2)).map (fun p => (x :: p.1, p.2))
              | c :: r2 => if c = ']' then some ([x], r2) else none
              | [] => none
          | none => none
      | _ => none

/-- Parse a JSON array of strings. -/
def parseStrArr (fuel : Nat) (s : Str) : Option (List Str × Str) :=
  match s with
  | '[' :: rest =>
      match skipWs rest with
      | ']' :: r => some ([], r)
      | s1 => parseStrArrElems fuel s1
  | _ => none

/-- `json.loads` of a whole document holding an array of flat objects (the
document must be fully consumed, up to trailing whitespace). -/
def jsonLoadsObjArr (s : Str) : Option (List (List (Str × JScalar))) :=
  match parseObjArr (s.length + 1) (skipWs s) with
  | some (l, rest) => if (skipWs rest).isEmpty then some l else none
  | none => none

/-- `json.loads` of a whole document holding an array of strings. -/
def jsonLoadsStrArr (s : Str) : Option (List Str) :=
  match parseStrArr (s.length + 1) (skipWs s) with
  | some (l, rest) => if (skipWs rest).isEmpty then some l else none
  | none => none

/-- Lookup in a parsed object with Python-dict semantics (`json.loads`
builds a dict, so a later duplicate key wins). -/
def objGet (ms : List (Str × JScalar)) (k : Str) : Option JScalar :=
  (ms.reverse.find? (fun kv => kv.1 = k)).map (fun kv => kv.2)

/-- The `default` field of a stored variable record, as `asdict` writes it. -/
def defaultToScalar : Option Value → JScalar
  | none => .jnull
  | some (.vStr s) => .jstr s
  | some (.vNum n) => .jint n
  | some (.vBool b) => .jbool b

/-- A stored scalar read back as a variable default (`null` means absent). -/
def scalarToDefault : JScalar → Option Value
  | .jnull => none
  | .jstr s => some (.vStr s)
  | .jint n => some (.vNum n)
  | .jbool b => some (.vBool b)

/-- `asdict` of a `TerraformVariable`, in dataclass field order. -/
def varToMembers (v : TerraformVariable) : List (Str × JScalar) :=
  [(("name").data, .jstr v.name),
   (("type").data, .jstr v.type),
   (("description").data, .jstr v.description),
   (("default").data, defaultToScalar v.default),
   (("required").data, .jbool v.required),
   (("sensitive").data, .jbool v.sensitive)]

/-- `asdict` of a `TerraformOutput`, in dataclass field order. -/
def outToMembers (o : TerraformOutput) : List (Str × JScalar) :=
  [(("name").data, .jstr o.name),
   (("description").data, .jstr o.description),
   (("value_expression").data, .jstr o.value_expression),
   (("sensitive").data, .jbool o.sensitive)]

/-- `asdict` of a `TerraformExample`, in dataclass field order. -/
def exampleToMembers (e : TerraformExample) : List (Str × JScalar) :=
  [(("title").data, .jstr e.title),
   (("description").data, .jstr e.description),
   (("hcl_code").data, .jstr e.hcl_code)]

/-- Read a string field with a dataclass default (a field stored at a
non-string value is outside the model and fails). -/
def getStrField (ms : List (Str × JScalar)) (k : Str) (dflt : Str) : Option Str :=
  match objGet ms k with
  | none => some dflt
  | some (.jstr s) => some s
  | some _ => none

/-- Read a boolean field with a dataclass default. -/
def getBoolField (ms : List (Str × JScalar)) (k : Str) (dflt : Bool) : Option Bool :=
  match objGet ms k with
  | none => some dflt
  | some (.jbool b) => some b
  | some _ => none

/-- `TerraformVariable(**r)`: reconstruct from a parsed record; an unknown
key or a missing required field raises in Python and is `none` here. -/
def varFromMembers (ms : List (Str × JScalar)) : Option TerraformVariable :=
  if !(ms.all (fun kv =>
      [("name").data, ("type").data, ("description").data, ("default").data,
       ("required").data, ("sensitive").data].contains kv.1)) then none
  else
    match objGet ms (("name").data), objGet ms (("type").data) with
    | some (.jstr nm), some (.jstr ty) =>
        match getStrField ms (("description").data) [],
              getBoolField ms (("required").data) true,
              getBoolField ms (("sensitive").data) false with
        | some desc, some req, some sens =>
            some { name := nm, type := ty, description := desc,
                   default := match objGet ms (("default").data) with
                              | some j => scalarToDefault j
                              | none => none,
                   required := req, sensitive := sens }
        | _, _, _ => none
    | _, _ => none

/-- `TerraformOutput(**r)`: reconstruct from a parsed record. -/
def outFromMembers (ms : List (Str × JScalar)) : Option TerraformOutput :=
  if !(ms.all (fun kv =>
      [("name").data, ("description").data, ("value_expression").data,
       ("sensitive").data].contains kv.1)) then none
  else
    match objGet ms (("name").data) with
    | some (.jstr nm) =>
        match getStrField ms (("description").data) [],
              getStrField ms (("value_expression").data) [],
              getBoolField ms (("sensitive").data) false with
        | some desc, some ve, some sens =>
            some { name := nm, description := desc, value_expression := ve,
                   sensitive := sens }
        | _, _, _ => none
    | _ => none

/-- `TerraformExample(**e)`: reconstruct from a parsed record. -/
def exampleFromMembers (ms : List (Str × JScalar)) : Option TerraformExample :=
  if !(ms.all (fun kv =>
      [("title").data, ("description").data, ("hcl_code").data].contains kv.1)) then none
  else
    match objGet ms (("title").data) with
    | some (.jstr t) =>
        match getStrField ms (("description").data) [],
              getStrField ms (("hcl_code").data) [] with
        | some desc, some code =>
            some { title := t, description := desc, hcl_code := code }
        | _, _ => none
    | _ => none

/-- The serialized variables column (`json.dumps([asdict(v) for v in ...])`). -/
def encodeVarsJson (l : List TerraformVariable) : Str :=
  encodeObjArr (l.map varToMembers)

/-- The serialized outputs column. -/
def encodeOutsJson (l : List TerraformOutput) : Str :=
  encodeObjArr (l.map outToMembers)

/-- The serialized examples column. -/
def encodeExsJson (l : List TerraformExample) : Str :=
  encodeObjArr (l.map exampleToMembers)

/- ── The storage row and the registry operations ────────────────── -/

/-- One row of the `modules` table: collection-valued columns hold the
serialized JSON text, exactly as `_save` writes them. -/
structure Row where
  id : Str
  name : Str
  provider : Str
  resource_type : Str
  version : Str
  description : Str
  hcl_template : Str
  «variables» : Str
  outputs : Str
  examples : Str
  tags : Str
  created_at : Str
  download_count : Int
deriving DecidableEq, Repr

/-- The row `_save` writes for a module. -/
def rowOfModule (m : TerraformModule) : Row :=
  { id := m.id, name := m.name, provider := m.provider,
    resource_type := m.resource_type, version := m.version,
    description := m.description, hcl_template := m.hcl_template,
    «variables» := encodeVarsJson m.variables,
    outputs := encodeOutsJson m.outputs,
    examples := encodeExsJson m.examples,
    tags := encodeStrArr m.tags,
    created_at := m.created_at, download_count := m.download_count }

/-- `row[key] or "[]"`: an empty column falls back to an empty JSON array. -/
def orBrackets (s : Str) : Str :=
  if s.isEmpty then ("[]").data else s

/-- `TerraformRegistry._row_to_module`: deserialize a stored row.  (The
`or ""` / `or 0` fallbacks of the source are identities on this model's
non-null rows.)  A row whose JSON does not decode raises in Python and is
`none` here. -/
def rowToModule (row : Row) : Option TerraformModule := do
  let vobjs ← jsonLoadsObjArr (orBrackets row.variables)
  let vars ← vobjs.mapM varFromMembers
  let oobjs ← jsonLoadsObjArr (orBrackets row.outputs)
  let outs ← oobjs.mapM outFromMembers
  let eobjs ← jsonLoadsObjArr (orBrackets row.examples)
  let exs ← eobjs.mapM exampleFromMembers
  let tags ← jsonLoadsStrArr (orBrackets row.tags)
  some { id := row.id, name := row.name, provider := row.provider,
         resource_type := row.resource_type, version := row.version,
         description := row.description, hcl_template := row.hcl_template,
         «variables» := vars, outputs := outs, examples := exs, tags := tags,
         created_at := row.created_at, download_count := row.download_count }

/-- The registry state: the rows of the `modules` table, in rowid order. -/
abbrev Registry := List Row

/-- Resolve a module reference (`WHERE id = ? OR name = ?`, first match). -/
def findRowRef (rows : Registry) (ref : Str) : Option Row :=
  rows.find? (fun r => r.id = ref || r.name = ref)

/-- `TerraformRegistry.get_module`: resolve and deserialize, `KeyError`
(here `notFound`) when nothing matches. -/
def getModuleReg (rows : Registry) (ref : Str) : Except RegError TerraformModule :=
  match findRowRef rows ref with
  | none => .error .notFound
  | some row =>
      match rowToModule row with
      | none => .error .decodeError
      | some m => .ok m

/-- `TerraformRegistry.generate_tf`: resolve the module, fail listing all
missing required variables, else substitute and increment the stored
`download_count` of that module's row by one.  The registry state is
returned unchanged on failure. -/
def generateTfReg (rows : Registry) (ref : Str) (vars : List (Str × Value)) :
    Except RegError Str × Registry :=
  match getModuleReg rows ref with
  | .error e => (.error e, rows)
  | .ok mod =>
      match generateTfPure mod vars with
      | .error e => (.error e, rows)
      | .ok out =>
          (.ok out,
           rows.map (fun r =>
             if r.id = mod.id then { r with download_count := r.download_count + 1 }
             else r))

/-- The fixed provider enumeration. -/
def PROVIDERS : List Str :=
  [("aws").data, ("gcp").data, ("azure").data, ("kubernetes").data,
   ("helm").data, ("null").data]

/-- `TerraformRegistry._save`: insert the module's row; on an id conflict
update every column except `created_at`; a name collision with a different
row violates the unique name index and raises (`none`). -/
def saveRow (rows : Registry) (mod : TerraformModule) : Option Registry :=
  let row := rowOfModule mod
  if rows.any (fun r => r.id = mod.id) then
    if rows.any (fun r => !(r.id = mod.id) && r.name = mod.name) then none
    else some (rows.map (fun r => if r.id = mod.id then { row with created_at := r.created_at } else r))
  else if rows.any (fun r => r.name = mod.name) then none
  else some (rows ++ [row])

/-- `TerraformRegistry.register_module`: validate the provider and the
template, build the module with a fresh identity and timestamp (passed in as
parameters, modelling `uuid.uuid4()` and `datetime.now`), and persist it. -/
def registerModule (rows : Registry) (name provider resource_type hcl_template : Str)
    («variables» : List TerraformVariable) (outputs : List TerraformOutput)
    (description : Str) (examples : List TerraformExample) (tags : List Str)
    (version : Str) (newId createdAt : Str) :
    Except RegError (TerraformModule × Registry) :=
  if !(PROVIDERS.contains provider) then .error .invalidProvider
  else if !(validateHcl hcl_template).valid then .error .invalidTemplate
  else
    let mod : TerraformModule :=
      { id := newId, name := name, provider := provider,
        resource_type := resource_type, version := version,
        description := description, hcl_template := hcl_template,
        «variables» := «variables», outputs := outputs, examples := examples,
        tags := tags, created_at := createdAt, download_count := 0 }
    match saveRow rows mod with
    | none => .error .nameConflict
    | some rows2 => .ok (mod, rows2)

/-- `TerraformRegistry.delete_module`: resolve the reference (returning
`false` when nothing matches, never an error), then delete the resolved
module's row by id and return `true`. -/
def deleteModule (rows : Registry) (ref : Str) : Except RegError (Bool × Registry) :=
  match findRowRef rows ref with
  | none => .ok (false, rows)
  | some row =>
      match rowToModule row with
      | none => .error .decodeError
      | some mod => .ok (true, rows.filter (fun r => !(r.id = mod.id)))

/- ── Plan renderer (`TerraformRegistry.export_plan`) ──────────────── -/

/-- Try the block pattern
`resource\s+"([\w]+)"\s+"([\w-]+)"\s*\{([^}]*)\}` at the head of the
input; on success return (type, name, body) and the rest after the match. -/
def matchResBlockAt (s : Str) : Option ((Str × Str × Str) × Str) :=
  if ("resource").data.isPrefixOf s then
    let r0 := s.drop 8
    let sp1 := r0.takeWhile reSpace
    if sp1.isEmpty then none
    else
      match r0.drop sp1.length with
      | '"' :: r1 =>
          let ty := r1.takeWhile isWordChar
          if ty.isEmpty then none
          else
            match r1.drop ty.length with
            | '"' :: r2 =>
                let sp2 := r2.takeWhile reSpace
                if sp2.isEmpty then none
                else
                  match r2.drop sp2.length with
                  | '"' :: r3 =>
                      let nm := r3.takeWhile isWordHyphen
                      if nm.isEmpty then none
                      else
                        match r3.drop nm.length with
                        | '"' :: r4 =>
                            match r4.dropWhile reSpace with
                            | c :: r5 =>
                                if c = openBrace then
                                  let body := r5.takeWhile (fun c => !(c = closeBrace))
                                  match r5.drop body.length with
                                  | _ :: r6 => some ((ty, nm, body), r6)
                                  | [] => none
                                else none
                            | [] => none
                        | _ => none
                  | _ => none
            | _ => none
      | _ => none
  else none

/-- Fuel-driven worker for `findBlocks` (`re.finditer`: leftmost,
non-overlapping, resuming after each match). -/
def findBlocksAux : Nat → Str → List (Str × Str × Str)
  | 0, _ => []
  | fuel + 1, s =>
      match matchResBlockAt s with
      | some (m, rest) => m :: findBlocksAux fuel rest
      | none =>
          match s with
          | [] => []
          | _ :: cs => findBlocksAux fuel cs

/-- All resource blocks of the rendered text, as `export_plan` extracts
them. -/
def findBlocks (s : Str) : List (Str × Str × Str) :=
  findBlocksAux s.length s

/-- Join lines with newlines (`"\n".join(lines)`). -/
def joinNL : List Str → Str
  | [] => []
  | [x] => x
  | x :: xs => x ++ '\n' :: joinNL xs

/-- The final labelled section header of a plan export. -/
def renderedHclHeader : Str :=
  ("# ── Rendered HCL ───────────────────────────────────────").data

/-- The no-blocks notice of a plan export. -/
def noBlocksNotice : Str :=
  ("# (no resource blocks detected in rendered template)").data

/-- The lines rendering one matched resource block in a plan export. -/
def planBlockLines (m : Str × Str × Str) : List Str :=
  (("  + resource \"").data ++ m.1 ++ ("\" \"").data ++ m.2.1 ++ ("\" \x7b").data)
  :: (pySplitLines (pyStrip m.2.2)).map (fun al => ("      ").data ++ pyStrip al)
  ++ [("  \x7d").data, []]

/-- The plan summary line (`Plan: N to add, 0 to change, 0 to destroy.`). -/
def planSummary (n : Nat) : Str :=
  ("Plan: ").data ++ natRepr n ++ (" to add, 0 to change, 0 to destroy.").data

/-- The header lines of a plan export. -/
def planHeaderLines (mod : TerraformModule) (ts : Str) : List Str :=
  [("# Terraform Plan Export").data,
   ("# Module  : ").data ++ mod.name ++ (" v").data ++ mod.version,
   ("# Provider : ").data ++ mod.provider,
   ("# Generated: ").data ++ ts,
   ("#").data,
   ("# This plan shows what Terraform would create/modify.").data,
   ("# Review carefully before applying.").data,
   [],
   ("# ── Resource: ").data ++ mod.resource_type ++ (" ──────────────────────────────").data,
   []]

/-- The middle lines of a plan export: the annotated blocks and summary
when any block matched, else the no-blocks notice and the raw rendering. -/
def planMidLines (ms : List (Str × Str × Str)) (rendered : Str) : List Str :=
  if ms.isEmpty then [noBlocksNotice, [], rendered]
  else (("Changes to be applied:").data :: [] :: (ms.map planBlockLines).flatten)
       ++ [planSummary ms.length]

/-- The final labelled section of a plan export. -/
def planTailLines (rendered : Str) : List Str :=
  [[], renderedHclHeader, [], rendered]

/-- The text `export_plan` produces from a resolved module, its rendered
template and the generation timestamp. -/
def exportPlanText (mod : TerraformModule) (rendered : Str) (ts : Str) : Str :=
  joinNL (planHeaderLines mod ts ++ planMidLines (findBlocks rendered) rendered
          ++ planTailLines rendered)

/-- `TerraformRegistry.export_plan`: resolve the module, render (with
`generate_tf`'s failure modes and download-count side effect), and format
the plan text. -/
def exportPlanReg (rows : Registry) (ref : Str) (vars : List (Str × Value)) (ts : Str) :
    Except RegError Str × Registry :=
  match getModuleReg rows ref with
  | .error e => (.error e, rows)
  | .ok mod =>
      match generateTfReg rows ref vars with
      | (.error e, rows2) => (.error e, rows2)
      | (.ok rendered, rows2) => (.ok (exportPlanText mod rendered ts), rows2)

/- ── Sample data used by the witnesses ─────────────────────────── -/

/-- A required variable without a default. -/
def wVarName : TerraformVariable :=
  { name := ("name").data, type := ("string").data,
    description := ("Instance name").data }

/-- An optional variable with a default. -/
def wVarEnv : TerraformVariable :=
  { name := ("env").data, type := ("string").data,
    default := some (.vStr (("dev").data)), required := false }

/-- An optional variable with neither default nor requirement. -/
def wVarExtra : TerraformVariable :=
  { name := ("opt").data, type := ("string").data, required := false }

/-- A sample output. -/
def wOut : TerraformOutput :=
  { name := ("oid").data, value_expression := ("aws_instance.main.id").data }

/-- A sample registered module. -/
def wMod : TerraformModule :=
  { id := ("id-1").data, name := ("demo").data, provider := ("aws").data,
    resource_type := ("aws_instance").data, version := ("1.2.3").data,
    description := ("sample").data,
    hcl_template := ("resource \"aws_instance\" \"$\x7bvar.name\x7d\" \x7b tag = \"$\x7bvar.env\x7d\" opt = \"$\x7bvar.opt\x7d\" \x7d").data,
    «variables» := [wVarName, wVarEnv, wVarExtra], outputs := [wOut],
    examples := [{ title := ("basic").data }],
    tags := [("aws").data, ("vm").data],
    created_at := ("2024-01-01T00:00:00+00:00").data }

/-- The three-component version string `M.m.p`. -/
def verStr (M m p : Nat) : Str :=
  natRepr M ++ '.' :: natRepr m ++ '.' :: natRepr p

/-- A balanced template containing a well-formed resource block followed by
a bare `resource` line. -/
def cexT3 : Str :=
  ("resource \"aws_instance\" \"x\" \x7b\n\x7d\nresource").data

/-- A single line starting with the string prefix `resource` but whose first
whitespace token is not `resource`. -/
def cexT4 : Str := ("resources_foo").data

/-- A valid single-resource template with enough labels. -/
def wTplOk : Str := ("resource \"aws_instance\" \"web\" \x7b ami = 1 \x7d").data

/-- A one-module registry holding the sample module's stored row. -/
def wRows : Registry := [rowOfModule wMod]

/-- Caller values supplying the required `name`. -/
def wVarsName : List (Str × Value) := [((("name").data), Value.vStr (("web").data))]

/-- The module record produced by the round-trip witness registration. -/
def wRegMod : TerraformModule :=
  { id := ("id-9").data, name := ("demo2").data, provider := ("aws").data,
    resource_type := ("aws_instance").data, version := ("0.1.0").data,
    description := ("d").data, hcl_template := wTplOk,
    «variables» := [wVarName], outputs := [wOut], examples := [],
    tags := [("t").data], created_at := ("2024-02-02T00:00:00+00:00").data,
    download_count := 0 }

/-- An optional, defaultless, unsupplied variable `a` whose placeholder is
destroyed by substituting another key. -/
def cexVar6 : TerraformVariable :=
  { name := ("a").data, type := ("string").data, required := false }

/-- A module whose template `X$\x7bvar.c$\x7bvar.a\x7d\x7d` nests the
placeholder of `a` inside text matched by another key's placeholder. -/
def cexMod6 : TerraformModule :=
  { id := ("id-6").data, name := ("demo6").data, provider := ("aws").data,
    resource_type := ("aws_instance").data, version := ("0.0.1").data,
    description := [], hcl_template := ("X$\x7bvar.c$\x7bvar.a\x7d\x7d").data,
    «variables» := [cexVar6] }

/-- Caller values for the destruction counterexample: the single key
`c$\x7bvar.a` does not name a declared variable. -/
def cexVars6 : List (Str × Value) :=
  [((("c$\x7bvar.a").data), Value.vStr (("V").data))]

/- ══ Theorems ═══════════════════════════════════════════════════
   Helper lemmas first, then for each claim its theorem (with witness or
   counterexample as required). -/

/-- Every character produced by `digitChar` is a decimal digit and none of
the characters that would disturb stripping, splitting or sign parsing. -/
theorem digitChar_mem (n : Nat) :
    digitChar n ∈ ['0', '1', '2', '3', '4', '5', '6', '7', '8', '9'] := by
  rcases n with _ | _ | _ | _ | _ | _ | _ | _ | _ | n <;> try decide
  show ('9' : Char) ∈ _
  decide

theorem digitChar_ok (n : Nat) :
    (digitChar n).isDigit = true ∧ isPySpace (digitChar n) = false ∧
    digitChar n ≠ '.' ∧ digitChar n ≠ '-' ∧ digitChar n ≠ '+' := by
  have h := digitChar_mem n
  simp only [List.mem_cons, List.not_mem_nil, or_false] at h
  rcases h with h | h | h | h | h | h | h | h | h | h <;> rw [h] <;>
    exact ⟨by decide, by decide, by decide, by decide, by decide⟩

/-- On digits, `digitChar` inverts through the character code. -/
theorem digitChar_val : ∀ n < 10, (digitChar n).toNat - 48 = n := by decide

/-- `digitsVal` peels off the last digit. -/
theorem digitsVal_append_digit (a : Str) (c : Char) :
    digitsVal (a ++ [c]) = 10 * digitsVal a + (c.toNat - 48) := by
  simp [digitsVal, List.foldl_append, Nat.mul_comm]

/-- `natReprAux` with enough fuel produces a non-empty digit string whose
value is the input. -/
theorem natReprAux_spec :
    ∀ fuel n, n < fuel →
      natReprAux fuel n ≠ [] ∧
      (∀ c ∈ natReprAux fuel n, ∃ k, c = digitChar k) ∧
      digitsVal (natReprAux fuel n) = n := by
  intro fuel
  induction fuel with
  | zero => omega
  | succ f ih =>
    intro n hn
    by_cases h10 : n < 10
    · refine ⟨by simp [natReprAux, h10], ?_, ?_⟩
      · intro c hc
        simp [natReprAux, h10] at hc
        exact ⟨n, hc⟩
      · have hv := digitChar_val n h10
        simp [natReprAux, h10, digitsVal, hv]
    · have hdiv : n / 10 < f := by
        have h1 : n / 10 < n := Nat.div_lt_self (by omega) (by omega)
        omega
      obtain ⟨hne, hdg, hval⟩ := ih (n / 10) hdiv
      refine ⟨?_, ?_, ?_⟩
      · simp [natReprAux, h10]
      · intro c hc
        simp only [natReprAux, if_neg h10, List.mem_append, List.mem_singleton] at hc
        rcases hc with hc | hc
        · exact hdg c hc
        · exact ⟨n % 10, hc⟩
      · have hmod := digitChar_val (n % 10) (Nat.mod_lt n (by omega))
        simp only [natReprAux, if_neg h10, digitsVal_append_digit, hval, hmod]
        omega

/-- `natRepr` is non-empty. -/
theorem natRepr_ne_nil (n : Nat) : natRepr n ≠ [] :=
  (natReprAux_spec (n + 1) n (Nat.lt_succ_self n)).1

/-- Every character of `natRepr` is a digit character. -/
theorem natRepr_chars (n : Nat) : ∀ c ∈ natRepr n, ∃ k, c = digitChar k :=
  (natReprAux_spec (n + 1) n (Nat.lt_succ_self n)).2.1

/-- `digitsVal` recovers the number from its decimal representation. -/
theorem digitsVal_natRepr (n : Nat) : digitsVal (natRepr n) = n :=
  (natReprAux_spec (n + 1) n (Nat.lt_succ_self n)).2.2

/-- Dropping by a predicate that fails on every element is the identity. -/
theorem dropWhile_eq_self_of_all {p : Char → Bool} :
    ∀ s : Str, (∀ c ∈ s, p c = false) → s.dropWhile p = s := by
  intro s h
  cases s with
  | nil => rfl
  | cons c cs => simp [List.dropWhile_cons, h c (by simp)]

/-- Stripping a string without whitespace characters is the identity. -/
theorem pyStrip_eq_self (s : Str) (h : ∀ c ∈ s, isPySpace c = false) :
    pyStrip s = s := by
  unfold pyStrip
  rw [dropWhile_eq_self_of_all s h,
      dropWhile_eq_self_of_all s.reverse (by intro c hc; exact h c (List.mem_reverse.mp hc)),
      List.reverse_reverse]

/-- `pyInt` parses the canonical decimal representation back. -/
theorem pyInt_natRepr (n : Nat) : pyInt (natRepr n) = some (n : Int) := by
  have hchars := natRepr_chars n
  have hstrip : pyStrip (natRepr n) = natRepr n := by
    apply pyStrip_eq_self
    intro c hc
    obtain ⟨k, rfl⟩ := hchars c hc
    exact (digitChar_ok k).2.1
  have hdigits : pyIntDigits (natRepr n) = some n := by
    unfold pyIntDigits
    rw [if_neg (by simp [natRepr_ne_nil n]), if_pos, digitsVal_natRepr]
    rw [List.all_eq_true]
    intro c hc
    obtain ⟨k, rfl⟩ := hchars c hc
    exact (digitChar_ok k).1
  unfold pyInt
  rw [hstrip]
  obtain ⟨c, cs, hcons⟩ : ∃ c cs, natRepr n = c :: cs := by
    cases hr : natRepr n with
    | nil => exact absurd hr (natRepr_ne_nil n)
    | cons c cs => exact ⟨c, cs, rfl⟩
  obtain ⟨k, hk⟩ := hchars c (by rw [hcons]; simp)
  rw [hcons]
  have hminus : c ≠ '-' := by rw [hk]; exact (digitChar_ok k).2.2.2.1
  have hplus : c ≠ '+' := by rw [hk]; exact (digitChar_ok k).2.2.2.2
  split
  · rename_i heq; exact absurd (List.cons.inj heq.symm).1.symm hminus
  · rename_i heq; exact absurd (List.cons.inj heq.symm).1.symm hplus
  · rw [← hcons, hdigits]; rfl

/-- Splitting consumes a separator-free segment up to the next separator. -/
theorem splitOnCharAux_mid (sep : Char) :
    ∀ (x : Str) (acc rest : Str), (∀ c ∈ x, c ≠ sep) →
      splitOnCharAux sep acc (x ++ sep :: rest) =
        (acc.reverse ++ x) :: splitOnCharAux sep [] rest := by
  intro x
  induction x with
  | nil =>
    intro acc rest _
    show splitOnCharAux sep acc (sep :: rest) = _
    rw [splitOnCharAux, if_pos rfl]
    simp
  | cons c x ih =>
    intro acc rest h
    have hc : ¬ c = sep := h c (by simp)
    show splitOnCharAux sep acc (c :: (x ++ sep :: rest)) = _
    rw [splitOnCharAux, if_neg hc, ih (c :: acc) rest (fun d hd => h d (by simp [hd]))]
    simp

/-- Splitting a separator-free tail yields a single field. -/
theorem splitOnCharAux_last (sep : Char) :
    ∀ (x : Str) (acc : Str), (∀ c ∈ x, c ≠ sep) →
      splitOnCharAux sep acc x = [acc.reverse ++ x] := by
  intro x
  induction x with
  | nil => intro acc _; simp [splitOnCharAux]
  | cons c x ih =>
    intro acc h
    have hc : ¬ c = sep := h c (by simp)
    rw [splitOnCharAux, if_neg hc, ih (c :: acc) (fun d hd => h d (by simp [hd]))]
    simp

/-- `natRepr` contains no dot. -/
theorem natRepr_no_dot (n : Nat) : ∀ c ∈ natRepr n, c ≠ '.' := by
  intro c hc
  obtain ⟨k, rfl⟩ := natRepr_chars n c hc
  exact (digitChar_ok k).2.2.1

/-- `version.split(".")` on a canonical three-component version. -/
theorem splitOnChar_verStr (M m p : Nat) :
    splitOnChar '.' (verStr M m p) = [natRepr M, natRepr m, natRepr p] := by
  unfold splitOnChar
  have hshape : verStr M m p =
      natRepr M ++ '.' :: (natRepr m ++ '.' :: natRepr p) := by
    simp [verStr, List.append_assoc]
  rw [hshape,
      splitOnCharAux_mid '.' (natRepr M) [] _ (natRepr_no_dot M),
      splitOnCharAux_mid '.' (natRepr m) [] _ (natRepr_no_dot m),
      splitOnCharAux_last '.' (natRepr p) [] (natRepr_no_dot p)]
  simp

/-- `intRepr` agrees with `natRepr` on natural numbers. -/
theorem intRepr_ofNat (n : Nat) : intRepr (n : Int) = natRepr n := by
  unfold intRepr
  rw [if_neg (by omega)]
  simp

/-- The formatted bumped version agrees with `verStr`. -/
theorem bumpStr_eq (a b c : Nat) :
    intRepr (a : Int) ++ ('.' :: intRepr (b : Int)) ++ ('.' :: intRepr (c : Int)) =
      verStr a b c := by
  simp [verStr, intRepr_ofNat, List.append_assoc]

/-- C8: for a module whose version is the three-component numeric string
`M.m.p`, `bump_version` with `patch` yields `M.m.(p+1)`, with `minor` yields
`M.(m+1).0`, and with `major` yields `(M+1).0.0`; in each case the new
version string is both stored on the module and returned. -/
theorem bump_version_spec (mod : TerraformModule) (M m p : Nat)
    (hv : mod.version = verStr M m p) :
    bumpVersion mod (("patch").data) =
      some (verStr M m (p + 1), { mod with version := verStr M m (p + 1) }) ∧
    bumpVersion mod (("minor").data) =
      some (verStr M (m + 1) 0, { mod with version := verStr M (m + 1) 0 }) ∧
    bumpVersion mod (("major").data) =
      some (verStr (M + 1) 0 0, { mod with version := verStr (M + 1) 0 0 }) := by
  have hsplit : (splitOnChar '.' mod.version).mapM pyInt =
      some [(M : Int), (m : Int), (p : Int)] := by
    rw [hv, splitOnChar_verStr]
    simp only [List.mapM, List.mapM.loop, pyInt_natRepr]
    rfl
  have hp1 : ((p : Int) + 1) = ((p + 1 : Nat) : Int) := by push_cast; ring
  have hm1 : ((m : Int) + 1) = ((m + 1 : Nat) : Int) := by push_cast; ring
  have hM1 : ((M : Int) + 1) = ((M + 1 : Nat) : Int) := by push_cast; ring
  have h0 : (0 : Int) = ((0 : Nat) : Int) := by simp
  refine ⟨?_, ?_, ?_⟩
  · unfold bumpVersion
    rw [hsplit]
    show some (_, _) = _
    rw [if_neg (by decide), if_neg (by decide)]
    rw [hp1, bumpStr_eq]
  · unfold bumpVersion
    rw [hsplit]
    show some (_, _) = _
    rw [if_neg (by decide), if_pos rfl]
    rw [hm1, h0, bumpStr_eq]
  · unfold bumpVersion
    rw [hsplit]
    show some (_, _) = _
    rw [if_pos rfl]
    rw [hM1, h0, bumpStr_eq]

/-- Witness for C8 at the sample module (version `1.2.3`). -/
theorem bump_version_spec_witness :
    bumpVersion wMod (("patch").data) =
      some (verStr 1 2 4, { wMod with version := verStr 1 2 4 }) ∧
    bumpVersion wMod (("minor").data) =
      some (verStr 1 3 0, { wMod with version := verStr 1 3 0 }) ∧
    bumpVersion wMod (("major").data) =
      some (verStr 2 0 0, { wMod with version := verStr 2 0 0 }) :=
  bump_version_spec wMod 1 2 3 (by decide)

/-- The resource-label error message starts with `r`. -/
theorem msgMissingLabels_head (rl : Str) : (msgMissingLabels rl).head? = some 'r' := rfl

/-- The resource-label error message differs from any message not starting
with `r`. -/
theorem msgMissingLabels_ne (rl x : Str) (hx : x.head? ≠ some 'r') :
    msgMissingLabels rl ≠ x :=
  fun h => hx (h ▸ msgMissingLabels_head rl)

/-- The resource-label error message determines the quoted line. -/
theorem msgMissingLabels_inj {a b : Str} (h : msgMissingLabels a = msgMissingLabels b) :
    a = b := by
  unfold msgMissingLabels at h
  rw [List.append_assoc, List.append_assoc] at h
  have h2 := List.append_cancel_left h
  exact List.append_cancel_right h2

/-- Membership in the stripped resource-prefixed lines. -/
theorem mem_resourceLines_iff (t rl : Str) :
    rl ∈ resourceLines t ↔
      ∃ l ∈ pySplitLines t,
        ("resource").data.isPrefixOf (pyStrip l) = true ∧ rl = pyStrip l := by
  unfold resourceLines
  rw [List.mem_filterMap]
  constructor
  · rintro ⟨l, hl, hf⟩
    by_cases hp : ("resource").data.isPrefixOf (pyStrip l)
    · rw [if_pos hp] at hf
      exact ⟨l, hl, hp, (Option.some.inj hf).symm⟩
    · rw [if_neg hp] at hf
      exact absurd hf (by simp)
  · rintro ⟨l, hl, hp, rfl⟩
    exact ⟨l, hl, by rw [if_pos hp]⟩

/-- The resource-label message never arises from a balance or emptiness
check. -/
theorem msgMissingLabels_not_mem_ite (rl x : Str) (c : Prop) [Decidable c]
    (hx : x.head? ≠ some 'r') :
    msgMissingLabels rl ∉ (if c then [x] else []) := by
  split
  · simp [msgMissingLabels_ne rl x hx]
  · simp

/-- C4 (amended): `validate_hcl` appends a `resource block missing labels`
error quoting a stripped source line exactly when that stripped line starts
with the string prefix `resource` and splits into fewer than three
whitespace-separated tokens.  (The source tests a plain string prefix, not
the first whitespace token — see the counterexample for the original
claim.) -/
theorem resource_label_error_iff (t rl : Str) :
    msgMissingLabels rl ∈ (validateHcl t).errors ↔
      ∃ l ∈ pySplitLines t,
        ("resource").data.isPrefixOf (pyStrip l) = true ∧
        (pySplit (pyStrip l)).length < 3 ∧ rl = pyStrip l := by
  have hshape : (validateHcl t).errors =
      (if t.count openBrace ≠ t.count closeBrace then [msgUnbalancedBraces] else []) ++
      (if t.count '[' ≠ t.count ']' then [msgUnbalancedBrackets] else []) ++
      (if t.count '(' ≠ t.count ')' then [msgUnbalancedParens] else []) ++
      (resourceLines t).filterMap (fun rl =>
        if (pySplit rl).length < 3 then some (msgMissingLabels rl) else none) ++
      (if (pyStrip t).isEmpty = true then [msgEmpty] else []) := rfl
  rw [hshape]
  simp only [List.mem_append]
  constructor
  · rintro ((((h | h) | h) | h) | h)
    · exact absurd h (msgMissingLabels_not_mem_ite rl _ _ (by decide))
    · exact absurd h (msgMissingLabels_not_mem_ite rl _ _ (by decide))
    · exact absurd h (msgMissingLabels_not_mem_ite rl _ _ (by decide))
    · rw [List.mem_filterMap] at h
      obtain ⟨rl2, hrl2, hf⟩ := h
      by_cases hlen : (pySplit rl2).length < 3
      · rw [if_pos hlen] at hf
        have heq := msgMissingLabels_inj (Option.some.inj hf)
        obtain ⟨l, hl, hp, hstrip⟩ := (mem_resourceLines_iff t rl2).mp hrl2
        exact ⟨l, hl, hp, by rw [← heq, ← hstrip]; exact ⟨hlen, rfl⟩⟩
      · rw [if_neg hlen] at hf
        exact absurd hf (by simp)
    · exact absurd h (msgMissingLabels_not_mem_ite rl _ _ (by decide))
  · rintro ⟨l, hl, hp, hlen, rfl⟩
    refine Or.inl (Or.inr ?_)
    rw [List.mem_filterMap]
    refine ⟨pyStrip l, (mem_resourceLines_iff t (pyStrip l)).mpr ⟨l, hl, hp, rfl⟩, ?_⟩
    rw [if_pos hlen]

/-- C4, counterexample to the claim as stated: on `resources_foo` the
resource-label error is appended although no source line begins with the
whitespace-token `resource` — the source tests a plain string prefix. -/
theorem resource_label_token_cex :
    msgMissingLabels cexT4 ∈ (validateHcl cexT4).errors ∧
    ∀ l ∈ pySplitLines cexT4, ¬ (pySplit l).head? = some (("resource").data) := by
  decide

/-- C3 (amended): a template with pairwise equal bracket counts, not
whitespace-only, containing a well-formed `resource "type" "name" {...}`
block, and in which every (stripped) line starting with `resource` carries
at least three whitespace-separated tokens, validates with `valid = true`
and no errors. -/
theorem validate_hcl_valid (t : Str)
    (hb : t.count openBrace = t.count closeBrace)
    (hk : t.count '[' = t.count ']')
    (hp : t.count '(' = t.count ')')
    (hne : ¬ pyStrip t = [])
    (hblk : ¬ findBlocks t = [])
    (hres : ∀ rl ∈ resourceLines t, 3 ≤ (pySplit rl).length) :
    (validateHcl t).valid = true ∧ (validateHcl t).errors = [] := by
  have herr : (validateHcl t).errors = [] := by
    have hshape : (validateHcl t).errors =
        (if t.count openBrace ≠ t.count closeBrace then [msgUnbalancedBraces] else []) ++
        (if t.count '[' ≠ t.count ']' then [msgUnbalancedBrackets] else []) ++
        (if t.count '(' ≠ t.count ')' then [msgUnbalancedParens] else []) ++
        (resourceLines t).filterMap (fun rl =>
          if (pySplit rl).length < 3 then some (msgMissingLabels rl) else none) ++
        (if (pyStrip t).isEmpty = true then [msgEmpty] else []) := rfl
    rw [hshape, if_neg (by simpa using hb), if_neg (by simpa using hk),
        if_neg (by simpa using hp), if_neg (by simp [hne])]
    simp only [List.append_nil, List.nil_append, List.append_assoc]
    rw [List.filterMap_eq_nil_iff]
    intro rl hrl
    rw [if_neg (by have := hres rl hrl; omega)]
  refine ⟨?_, herr⟩
  have hv : (validateHcl t).valid = (validateHcl t).errors.isEmpty := rfl
  rw [hv, herr]
  rfl

/-- Witness for C3 (amended) on a concrete valid template. -/
theorem validate_hcl_valid_witness :
    (validateHcl wTplOk).valid = true ∧ (validateHcl wTplOk).errors = [] :=
  validate_hcl_valid wTplOk (by decide) (by decide) (by decide) (by decide)
    (by decide) (by decide)

/-- C3, counterexample to the claim as stated: `cexT3` has pairwise equal
bracket counts, is not whitespace-only, and contains a well-formed
`resource "type" "name" {...}` block, yet a later bare `resource` line makes
validation fail. -/
theorem validate_balanced_cex :
    (cexT3.count openBrace = cexT3.count closeBrace ∧
     cexT3.count '[' = cexT3.count ']' ∧
     cexT3.count '(' = cexT3.count ')' ∧
     ¬ pyStrip cexT3 = [] ∧ ¬ findBlocks cexT3 = []) ∧
    (validateHcl cexT3).valid = false := by decide

/-- A dict without the key has no entry. -/
theorem dictGet_eq_none (d : List (Str × α)) (k : Str) (h : dictHas d k = false) :
    dictGet d k = none := by
  unfold dictGet
  have hfind : d.find? (fun kv => kv.1 = k) = none := by
    rw [List.find?_eq_none]
    intro kv hkv
    unfold dictHas at h
    rw [List.any_eq_false] at h
    exact h kv hkv
  rw [hfind]
  rfl

/-- Inserting stores the value under its key. -/
theorem dictGet_insert_self (d : List (Str × α)) (k : Str) (v : α) :
    dictGet (dictInsert d k v) k = some v := by
  unfold dictInsert
  by_cases h : dictHas d k = true
  · rw [if_pos h]
    unfold dictHas at h
    induction d with
    | nil => simp at h
    | cons kv0 d ih =>
      rw [List.any_cons] at h
      by_cases h0 : kv0.1 = k
      · simp [dictGet, List.find?_cons, h0]
      · have h2 : d.any (fun kv => kv.1 = k) = true := by
          rcases Bool.or_eq_true_iff.mp h with h | h
          · exact absurd (by simpa using h) h0
          · exact h
        simp only [List.map_cons]
        rw [if_neg h0]
        unfold dictGet
        rw [List.find?_cons_of_neg _ (by simpa using h0)]
        exact ih h2
  · rw [if_neg h]
    have hfind : d.find? (fun kv => kv.1 = k) = none := by
      rw [List.find?_eq_none]
      intro kv hkv
      unfold dictHas at h
      rw [Bool.not_eq_true, List.any_eq_false] at h
      exact h kv hkv
    unfold dictGet
    rw [List.find?_append, hfind]
    simp [List.find?_cons]

/-- Inserting under a different key preserves a lookup. -/
theorem dictGet_insert_ne (d : List (Str × α)) (k k2 : Str) (v : α) (hne : ¬ k2 = k) :
    dictGet (dictInsert d k v) k2 = dictGet d k2 := by
  unfold dictInsert
  by_cases h : dictHas d k = true
  · rw [if_pos h]
    clear h
    induction d with
    | nil => rfl
    | cons kv0 d ih =>
      simp only [List.map_cons]
      by_cases h0 : kv0.1 = k
      · rw [if_pos h0]
        unfold dictGet
        rw [List.find?_cons_of_neg _ (by simpa using fun hh : k = k2 => hne hh.symm),
            List.find?_cons_of_neg _ (by rw [h0]; simpa using fun hh : k = k2 => hne hh.symm)]
        exact ih
      · rw [if_neg h0]
        by_cases h2 : kv0.1 = k2
        · unfold dictGet
          rw [List.find?_cons_of_pos _ (by simpa using h2),
              List.find?_cons_of_pos _ (by simpa using h2)]
        · unfold dictGet
          rw [List.find?_cons_of_neg _ (by simpa using h2),
              List.find?_cons_of_neg _ (by simpa using h2)]
          exact ih
  · rw [if_neg h]
    unfold dictGet
    rw [List.find?_append]
    have hone : List.find? (fun kv => kv.1 = k2) [(k, v)] = none := by
      rw [List.find?_eq_none]
      intro x hx
      have hx2 : x = (k, v) := by simpa using hx
      rw [hx2]
      simpa using fun hh : k = k2 => hne hh.symm
    rw [hone]
    simp

/-- A dict built by updating resolves a key to the updating value when
present (keys of the update are distinct), else to the base dict's value. -/
theorem dictGet_update (kvs : List (Str × α)) :
    ∀ d, (dictKeys kvs).Nodup →
      ∀ k, dictGet (dictUpdate d kvs) k =
        match dictGet kvs k with
        | some v => some v
        | none => dictGet d k := by
  induction kvs with
  | nil => intro d _ k; rfl
  | cons kv0 kvs ih =>
    intro d hnd k
    have hnd' : kv0.1 ∉ dictKeys kvs ∧ (dictKeys kvs).Nodup := by
      rw [show dictKeys (kv0 :: kvs) = kv0.1 :: dictKeys kvs from rfl] at hnd
      exact List.nodup_cons.mp hnd
    have hstep : dictUpdate d (kv0 :: kvs) = dictUpdate (dictInsert d kv0.1 kv0.2) kvs := rfl
    rw [hstep, ih (dictInsert d kv0.1 kv0.2) hnd'.2 k]
    by_cases h0 : k = kv0.1
    · have hnotin : dictGet kvs k = none := by
        apply dictGet_eq_none
        unfold dictHas
        rw [List.any_eq_false]
        intro kv hkv hc
        apply hnd'.1
        rw [← h0, ← (by simpa using hc : kv.1 = k)]
        exact List.mem_map_of_mem _ hkv
      have hhead : dictGet (kv0 :: kvs) k = some kv0.2 := by
        unfold dictGet
        rw [List.find?_cons_of_pos _ (by simpa using h0.symm)]
        rfl
      rw [hnotin, hhead, h0, dictGet_insert_self]
    · have hhead : dictGet (kv0 :: kvs) k = dictGet kvs k := by
        unfold dictGet
        rw [List.find?_cons_of_neg _ (by simpa using fun hh : kv0.1 = k => h0 hh.symm)]
      rw [hhead, dictGet_insert_ne d kv0.1 k kv0.2 h0]

/-- Lookup in the defaults table: under distinct variable names, the (only)
variable carrying the key's name supplies its default, when present. -/
theorem dictGet_defaults (vs : List TerraformVariable) :
    ∀ (acc : List (Str × Value)), (vs.map (fun v => v.name)).Nodup →
      ∀ k, dictGet (vs.foldl (fun d v =>
              match v.default with
              | some dv => dictInsert d v.name dv
              | none => d) acc) k =
        match (vs.find? (fun v => v.name = k)).bind (fun v => v.default) with
        | some dv => some dv
        | none => dictGet acc k := by
  induction vs with
  | nil => intro acc _ k; rfl
  | cons v0 vs ih =>
    intro acc hnd k
    rw [List.foldl_cons]
    have hmap : List.map (fun v => v.name) (v0 :: vs) =
        v0.name :: vs.map (fun v => v.name) := rfl
    rw [hmap, List.nodup_cons] at hnd
    rw [ih _ hnd.2 k]
    by_cases h0 : v0.name = k
    · have hnotin : vs.find? (fun v => v.name = k) = none := by
        rw [List.find?_eq_none]
        intro v hv hc
        have hvk : v.name = k := by simpa using hc
        apply hnd.1
        rw [h0, ← hvk]
        exact List.mem_map_of_mem _ hv
      have hfind : List.find? (fun v => v.name = k) (v0 :: vs) = some v0 :=
        List.find?_cons_of_pos _ (by simpa using h0)
      rw [hnotin, hfind]
      simp only [Option.some_bind]
      cases hd : v0.default with
      | some dv =>
        change dictGet (dictInsert acc v0.name dv) k = some dv
        rw [← h0, dictGet_insert_self]
      | none => rfl
    · have hfind : List.find? (fun v => v.name = k) (v0 :: vs) =
          List.find? (fun v => v.name = k) vs :=
        List.find?_cons_of_neg _ (by simpa using h0)
      rw [hfind]
      cases hfb : (vs.find? (fun v => v.name = k)).bind (fun v => v.default) with
      | some dv => rfl
      | none =>
        cases hd : v0.default with
        | some dv =>
          change dictGet (dictInsert acc v0.name dv) k = dictGet acc k
          exact dictGet_insert_ne acc v0.name k dv (fun hh => h0 hh.symm)
        | none => rfl

/-- Under distinct keys, a pair of the list is what lookup returns. -/
theorem dictGet_of_mem (kvs : List (Str × α)) (hnd : (dictKeys kvs).Nodup)
    {k : Str} {v : α} (hmem : (k, v) ∈ kvs) : dictGet kvs k = some v := by
  induction kvs with
  | nil => cases hmem
  | cons kv0 kvs ih =>
    rw [show dictKeys (kv0 :: kvs) = kv0.1 :: dictKeys kvs from rfl,
        List.nodup_cons] at hnd
    rcases List.mem_cons.mp hmem with h | h
    · rw [← h]
      unfold dictGet
      rw [List.find?_cons_of_pos _ (by simp)]
      rfl
    · have hne : ¬ kv0.1 = k := by
        intro he
        have hk : k ∈ dictKeys kvs := by
          unfold dictKeys
          exact (List.mem_map_of_mem (fun kv => kv.1) h : (k, v).1 ∈ _)
        exact hnd.1 (he ▸ hk)
      unfold dictGet
      rw [List.find?_cons_of_neg _ (by simpa using hne)]
      exact ih hnd.2 h

/-- Under distinct names, searching for a member's name finds the member. -/
theorem find?_name_eq (vs : List TerraformVariable)
    (hnd : (vs.map (fun v => v.name)).Nodup) (v : TerraformVariable) (hv : v ∈ vs) :
    vs.find? (fun w => w.name = v.name) = some v := by
  induction vs with
  | nil => cases hv
  | cons w0 vs ih =>
    rw [show List.map (fun v => v.name) (w0 :: vs) = w0.name :: vs.map (fun v => v.name)
          from rfl,
        List.nodup_cons] at hnd
    rcases List.mem_cons.mp hv with h | h
    · rw [← h]
      exact List.find?_cons_of_pos _ (by simp)
    · have hne : ¬ w0.name = v.name := by
        intro he
        exact hnd.1 (he ▸ List.mem_map_of_mem (fun v => v.name) h)
      rw [List.find?_cons_of_neg _ (by simpa using hne)]
      exact ih hnd.2 h

/-- C1: whenever no required variable lacking a default is left unsupplied,
`generate_tf` succeeds and returns the template with, for every entry of the
merged value table, every literal occurrence of its placeholder replaced by
the value's string form (in table order); the merged table carries every
caller-supplied value, and the default of every defaulted variable that the
caller did not override. -/
theorem generate_tf_renders_merged (mod : TerraformModule) (vars : List (Str × Value))
    (hmiss : missingVars mod vars = [])
    (hnames : (mod.variables.map (fun v => v.name)).Nodup)
    (hkeys : (dictKeys vars).Nodup) :
    generateTfPure mod vars =
      .ok (substituteAll mod.hcl_template (mergedTable mod vars)) ∧
    (∀ k v, (k, v) ∈ vars → dictGet (mergedTable mod vars) k = some v) ∧
    (∀ v ∈ mod.variables, ∀ dv, v.default = some dv → dictHas vars v.name = false →
       dictGet (mergedTable mod vars) v.name = some dv) := by
  refine ⟨?_, ?_, ?_⟩
  · simp only [generateTfPure]
    rw [hmiss]
    rfl
  · intro k v hmem
    unfold mergedTable
    rw [dictGet_update vars _ hkeys k, dictGet_of_mem vars hkeys hmem]
  · intro v hv dv hdv hhas
    unfold mergedTable
    rw [dictGet_update vars _ hkeys v.name, dictGet_eq_none vars v.name hhas]
    show dictGet (defaultsTable mod.variables) v.name = some dv
    unfold defaultsTable
    rw [dictGet_defaults mod.variables [] hnames v.name,
        find?_name_eq mod.variables hnames v hv]
    simp only [Option.some_bind]
    rw [hdv]

/-- Witness for C1 on the sample module (`name` overridden, `env` left to
its default). -/
theorem generate_tf_renders_merged_witness :
    generateTfPure wMod [((("name").data), Value.vStr (("web").data))] =
      .ok (substituteAll wMod.hcl_template
            (mergedTable wMod [((("name").data), Value.vStr (("web").data))])) ∧
    (∀ k v, (k, v) ∈ [((("name").data), Value.vStr (("web").data))] →
      dictGet (mergedTable wMod [((("name").data), Value.vStr (("web").data))]) k = some v) ∧
    (∀ v ∈ wMod.variables, ∀ dv, v.default = some dv →
      dictHas [((("name").data), Value.vStr (("web").data))] v.name = false →
      dictGet (mergedTable wMod [((("name").data), Value.vStr (("web").data))]) v.name = some dv) :=
  generate_tf_renders_merged wMod [((("name").data), Value.vStr (("web").data))]
    (by decide) (by decide) (by decide)

/-- Dropping the entries of one key leaves other keys' membership. -/
theorem dictHas_filter_ne (vars : List (Str × Value)) (k name : Str) (hne : ¬ name = k) :
    dictHas (vars.filter (fun kv => !(kv.1 = k))) name = dictHas vars name := by
  unfold dictHas
  induction vars with
  | nil => rfl
  | cons kv0 rest ih =>
    by_cases h0 : kv0.1 = k
    · rw [List.filter_cons_of_neg (by simpa using h0), List.any_cons]
      have hh : (decide (kv0.1 = name)) = false := by
        simp only [decide_eq_false_iff_not]
        intro he
        exact hne (by rw [← he, h0])
      rw [ih, hh]
      simp
    · rw [List.filter_cons_of_pos (by simpa using h0), List.any_cons, List.any_cons, ih]

/-- C10: a caller-supplied key that names no declared variable changes
nothing about the missing-variable check, joins the merged value table with
its value, and the render (when it succeeds) substitutes the whole merged
table — including that entry — into the template. -/
theorem generate_tf_undeclared_key (mod : TerraformModule) (vars : List (Str × Value))
    (k : Str) (v : Value)
    (hkv : (k, v) ∈ vars)
    (hundecl : ∀ tv ∈ mod.variables, ¬ tv.name = k)
    (hkeys : (dictKeys vars).Nodup) :
    missingVars mod vars = missingVars mod (vars.filter (fun kv => !(kv.1 = k))) ∧
    dictGet (mergedTable mod vars) k = some v ∧
    (missingVars mod vars = [] →
      generateTfPure mod vars =
        .ok (substituteAll mod.hcl_template (mergedTable mod vars))) := by
  refine ⟨?_, ?_, ?_⟩
  · unfold missingVars
    congr 1
    apply List.filter_congr
    intro tv htv
    rw [dictHas_filter_ne vars k tv.name (hundecl tv htv)]
  · unfold mergedTable
    rw [dictGet_update vars _ hkeys k, dictGet_of_mem vars hkeys hkv]
  · intro hmiss
    simp only [generateTfPure]
    rw [hmiss]
    rfl

/-- Witness for C10: the sample module rendered with an extra, undeclared
`extra` key. -/
theorem generate_tf_undeclared_key_witness :
    missingVars wMod
        [((("name").data), Value.vStr (("web").data)),
         ((("extra").data), Value.vNum 7)] =
      missingVars wMod
        ([((("name").data), Value.vStr (("web").data)),
          ((("extra").data), Value.vNum 7)].filter
            (fun kv => !(kv.1 = ("extra").data))) ∧
    dictGet (mergedTable wMod
        [((("name").data), Value.vStr (("web").data)),
         ((("extra").data), Value.vNum 7)]) (("extra").data) = some (Value.vNum 7) ∧
    (missingVars wMod
        [((("name").data), Value.vStr (("web").data)),
         ((("extra").data), Value.vNum 7)] = [] →
      generateTfPure wMod
          [((("name").data), Value.vStr (("web").data)),
           ((("extra").data), Value.vNum 7)] =
        .ok (substituteAll wMod.hcl_template
              (mergedTable wMod
                [((("name").data), Value.vStr (("web").data)),
                 ((("extra").data), Value.vNum 7)]))) :=
  generate_tf_undeclared_key wMod
    [((("name").data), Value.vStr (("web").data)), ((("extra").data), Value.vNum 7)]
    (("extra").data) (Value.vNum 7) (by decide) (by decide) (by decide)

/-- Bumping one row's counter: the looked-up counter grows by one. -/
theorem find?_bump (rows : List Row) (mid : Str) :
    ((rows.map (fun r =>
        if r.id = mid then { r with download_count := r.download_count + 1 } else r)).find?
          (fun r => r.id = mid)).map (fun r => r.download_count) =
      (rows.find? (fun r => r.id = mid)).map (fun r => r.download_count + 1) := by
  induction rows with
  | nil => rfl
  | cons r0 rest ih =>
    by_cases h0 : r0.id = mid
    · simp only [List.map_cons, if_pos h0]
      rw [List.find?_cons_of_pos _ (by simpa using h0),
          List.find?_cons_of_pos _ (by simpa using h0)]
      rfl
    · simp only [List.map_cons, if_neg h0]
      rw [List.find?_cons_of_neg _ (by simpa using h0),
          List.find?_cons_of_neg _ (by simpa using h0)]
      exact ih

/-- C2: with the module resolved, `generate_tf` fails exactly when some
required, defaultless variable is unsupplied; the failure carries the whole
missing list; on failure the stored rows are untouched, and on success the
module's stored `download_count` grows by exactly one while every other row
is kept. -/
theorem generate_tf_missing_iff (rows : Registry) (ref : Str)
    (vars : List (Str × Value)) (row : Row) (mod : TerraformModule)
    (hrow : findRowRef rows ref = some row)
    (hmod : rowToModule row = some mod) :
    ((∃ e, (generateTfReg rows ref vars).1 = .error e) ↔
        ¬ missingVars mod vars = []) ∧
    (∀ e, (generateTfReg rows ref vars).1 = .error e →
        e = .missingRequired (missingVars mod vars)) ∧
    (¬ missingVars mod vars = [] → (generateTfReg rows ref vars).2 = rows) ∧
    (missingVars mod vars = [] →
      (((generateTfReg rows ref vars).2.find? (fun r => r.id = mod.id)).map
          (fun r => r.download_count)) =
        ((rows.find? (fun r => r.id = mod.id)).map (fun r => r.download_count + 1)) ∧
      ∀ r ∈ rows, ¬ r.id = mod.id → r ∈ (generateTfReg rows ref vars).2) := by
  have hget : getModuleReg rows ref = .ok mod := by
    unfold getModuleReg
    rw [hrow]
    show (match rowToModule row with
          | none => Except.error RegError.decodeError
          | some m => Except.ok m) = Except.ok mod
    rw [hmod]
  by_cases hm : missingVars mod vars = []
  · have hpure : generateTfPure mod vars =
        .ok (substituteAll mod.hcl_template (mergedTable mod vars)) := by
      simp only [generateTfPure]
      rw [hm]
      rfl
    have hreg : generateTfReg rows ref vars =
        (.ok (substituteAll mod.hcl_template (mergedTable mod vars)),
         rows.map (fun r =>
           if r.id = mod.id then { r with download_count := r.download_count + 1 }
           else r)) := by
      unfold generateTfReg
      rw [hget]
      show (match generateTfPure mod vars with
            | Except.error e => (Except.error e, rows)
            | Except.ok out =>
                (Except.ok out,
                 rows.map (fun (r : Row) =>
                   if r.id = mod.id then { r with download_count := r.download_count + 1 }
                   else r))) = _
      rw [hpure]
    refine ⟨?_, ?_, ?_, ?_⟩
    · constructor
      · rintro ⟨e, he⟩
        rw [hreg] at he
        exact absurd he (by simp)
      · intro h
        exact absurd hm h
    · intro e he
      rw [hreg] at he
      exact absurd he (by simp)
    · intro h
      exact absurd hm h
    · intro _
      rw [hreg]
      exact ⟨find?_bump rows mod.id, by
        intro r hr hne
        have : (if r.id = mod.id then { r with download_count := r.download_count + 1 }
                else r) = r := if_neg hne
        exact this ▸ List.mem_map_of_mem _ hr⟩
  · have hpure : generateTfPure mod vars =
        .error (.missingRequired (missingVars mod vars)) := by
      simp only [generateTfPure]
      rw [if_neg (by simpa using hm)]
    have hreg : generateTfReg rows ref vars =
        (.error (.missingRequired (missingVars mod vars)), rows) := by
      unfold generateTfReg
      rw [hget]
      show (match generateTfPure mod vars with
            | Except.error e => (Except.error e, rows)
            | Except.ok out =>
                (Except.ok out,
                 rows.map (fun (r : Row) =>
                   if r.id = mod.id then { r with download_count := r.download_count + 1 }
                   else r))) = _
      rw [hpure]
    refine ⟨?_, ?_, ?_, ?_⟩
    · exact ⟨fun _ => hm, fun _ => ⟨_, by rw [hreg]⟩⟩
    · intro e he
      rw [hreg] at he
      simpa using he.symm
    · intro _
      rw [hreg]
    · intro h
      exact absurd h hm

/-- Witness for C2 at the sample registry with no caller values (the
required `name` is missing). -/
theorem generate_tf_missing_iff_witness :
    ((∃ e, (generateTfReg wRows (("demo").data) []).1 = .error e) ↔
        ¬ missingVars wMod [] = []) ∧
    (∀ e, (generateTfReg wRows (("demo").data) []).1 = .error e →
        e = .missingRequired (missingVars wMod [])) ∧
    (¬ missingVars wMod [] = [] → (generateTfReg wRows (("demo").data) []).2 = wRows) ∧
    (missingVars wMod [] = [] →
      (((generateTfReg wRows (("demo").data) []).2.find? (fun r => r.id = wMod.id)).map
          (fun r => r.download_count)) =
        ((wRows.find? (fun r => r.id = wMod.id)).map (fun r => r.download_count + 1)) ∧
      ∀ r ∈ wRows, ¬ r.id = wMod.id → r ∈ (generateTfReg wRows (("demo").data) []).2) :=
  generate_tf_missing_iff wRows (("demo").data) [] (rowOfModule wMod) wMod
    (by decide) (by decide)

/-- Deserialization keeps the row's identity. -/
theorem rowToModule_id (row : Row) (mod : TerraformModule)
    (hmod : rowToModule row = some mod) : mod.id = row.id := by
  simp only [rowToModule, Option.bind_eq_some, Option.some.injEq, bind] at hmod
  obtain ⟨a, _, b, _, c, _, d, _, e, _, f, _, g, _, hmod⟩ := hmod
  rw [← hmod]

/-- C9: `delete` on a reference matching nothing returns `false`, leaves the
store untouched and raises no error; `delete` on a reference resolving to a
stored module removes that module's row (keeping all others) and returns
`true`, after which `get` by the same reference fails with NotFound. -/
theorem delete_module_spec (rows : Registry) (ref1 ref2 : Str) (row : Row)
    (mod : TerraformModule)
    (h1 : findRowRef rows ref1 = none)
    (hrow : findRowRef rows ref2 = some row)
    (hmod : rowToModule row = some mod)
    (huniq : ∀ r ∈ rows, (r.id = ref2 ∨ r.name = ref2) → r.id = mod.id) :
    deleteModule rows ref1 = .ok (false, rows) ∧
    (∃ rows2, deleteModule rows ref2 = .ok (true, rows2) ∧
       row ∉ rows2 ∧
       (∀ r ∈ rows, ¬ r.id = mod.id → r ∈ rows2) ∧
       getModuleReg rows2 ref2 = .error .notFound) := by
  constructor
  · unfold deleteModule
    rw [h1]
  · refine ⟨rows.filter (fun r => !(r.id = mod.id)), ?_, ?_, ?_, ?_⟩
    · unfold deleteModule
      rw [hrow]
      show (match rowToModule row with
            | none => Except.error RegError.decodeError
            | some m => Except.ok (true, rows.filter (fun (r : Row) => !(r.id = m.id)))) = _
      rw [hmod]
    · intro hmem
      have hpred := (List.mem_filter.mp hmem).2
      have hid : row.id = mod.id := (rowToModule_id row mod hmod).symm
      rw [hid] at hpred
      simp at hpred
    · intro r hr hne
      exact List.mem_filter.mpr ⟨hr, by simpa using hne⟩
    · unfold getModuleReg findRowRef
      have hnone : (rows.filter (fun r => !(r.id = mod.id))).find?
          (fun r => r.id = ref2 || r.name = ref2) = none := by
        rw [List.find?_eq_none]
        intro r hr hc
        have hin := List.mem_filter.mp hr
        have hmatch : r.id = ref2 ∨ r.name = ref2 := by
          rcases Bool.or_eq_true_iff.mp hc with hc2 | hc2
          · exact Or.inl (by simpa using hc2)
          · exact Or.inr (by simpa using hc2)
        have := huniq r hin.1 hmatch
        rw [this] at hin
        simpa using hin.2
      rw [hnone]

/-- Witness for C9: the sample registry with an unknown and a known
reference. -/
theorem delete_module_spec_witness :
    deleteModule wRows (("nope").data) = .ok (false, wRows) ∧
    (∃ rows2, deleteModule wRows (("demo").data) = .ok (true, rows2) ∧
       rowOfModule wMod ∉ rows2 ∧
       (∀ r ∈ wRows, ¬ r.id = wMod.id → r ∈ rows2) ∧
       getModuleReg rows2 (("demo").data) = .error .notFound) :=
  delete_module_spec wRows (("nope").data) (("demo").data) (rowOfModule wMod) wMod
    (by decide) (by decide) (by decide) (by decide)

/-- Joining distributes over appending two non-empty line lists. -/
theorem joinNL_append (l1 l2 : List Str) (h1 : ¬ l1 = []) (h2 : ¬ l2 = []) :
    joinNL (l1 ++ l2) = joinNL l1 ++ '\n' :: joinNL l2 := by
  induction l1 with
  | nil => exact absurd rfl h1
  | cons x l1 ih =>
    cases l1 with
    | nil =>
      cases l2 with
      | nil => exact absurd rfl h2
      | cons y l2 => simp [joinNL]
    | cons x2 l1 =>
      have := ih (by simp)
      rw [show ((x :: x2 :: l1) ++ l2) = x :: ((x2 :: l1) ++ l2) from rfl]
      rw [show joinNL (x :: x2 :: l1) = x ++ '\n' :: joinNL (x2 :: l1) from rfl]
      cases hl : (x2 :: l1) ++ l2 with
      | nil => simp at hl
      | cons z zs =>
        rw [show joinNL (x :: z :: zs) = x ++ '\n' :: joinNL (z :: zs) from rfl]
        rw [← hl, this]
        simp

/-- A member line occurs inside the joined text. -/
theorem joinNL_infix_of_mem (l : List Str) (x : Str) (hx : x ∈ l) :
    ∃ a b, joinNL l = a ++ x ++ b := by
  induction l with
  | nil => cases hx
  | cons x0 l ih =>
    rcases List.mem_cons.mp hx with h | h
    · cases l with
      | nil =>
        refine ⟨[], [], ?_⟩
        simp [joinNL, ← h]
      | cons y l =>
        refine ⟨[], '\n' :: joinNL (y :: l), ?_⟩
        rw [show joinNL (x0 :: y :: l) = x0 ++ '\n' :: joinNL (y :: l) from rfl, ← h]
        simp
    · obtain ⟨a, b, hab⟩ := ih h
      cases l with
      | nil => cases h
      | cons y l =>
        refine ⟨x0 ++ '\n' :: a, b, ?_⟩
        rw [show joinNL (x0 :: y :: l) = x0 ++ '\n' :: joinNL (y :: l) from rfl, hab]
        simp

/-- C5: when rendering succeeds, `export_plan` emits — for `N ≥ 1` matched
resource blocks — a summary containing `N to add, 0 to change, 0 to
destroy.`; with no matched block it instead emits the no-blocks notice
immediately followed by the raw rendered text; and in both cases the full
rendered text forms the final labelled section. -/
theorem export_plan_spec (rows rows2 : Registry) (ref : Str)
    (vars : List (Str × Value)) (ts : Str) (mod : TerraformModule) (rendered : Str)
    (hget : getModuleReg rows ref = .ok mod)
    (hren : generateTfReg rows ref vars = (.ok rendered, rows2)) :
    exportPlanReg rows ref vars ts = (.ok (exportPlanText mod rendered ts), rows2) ∧
    (¬ findBlocks rendered = [] →
      ∃ a b, exportPlanText mod rendered ts =
        a ++ (natRepr (findBlocks rendered).length ++
              (" to add, 0 to change, 0 to destroy.").data) ++ b) ∧
    (findBlocks rendered = [] →
      ∃ a b, exportPlanText mod rendered ts =
        a ++ (noBlocksNotice ++ '\n' :: '\n' :: rendered) ++ b) ∧
    (∃ a, exportPlanText mod rendered ts =
       a ++ renderedHclHeader ++ '\n' :: '\n' :: rendered) := by
  have hexp : exportPlanReg rows ref vars ts =
      (.ok (exportPlanText mod rendered ts), rows2) := by
    unfold exportPlanReg
    rw [hget]
    show (match generateTfReg rows ref vars with
          | (Except.error e, rows3) => (Except.error e, rows3)
          | (Except.ok rendered2, rows3) =>
              (Except.ok (exportPlanText mod rendered2 ts), rows3)) = _
    rw [hren]
  refine ⟨hexp, ?_, ?_, ?_⟩
  · intro hne
    have hmem : planSummary (findBlocks rendered).length ∈
        planHeaderLines mod ts ++ planMidLines (findBlocks rendered) rendered
          ++ planTailLines rendered := by
      rw [List.append_assoc, List.mem_append]
      right
      rw [List.mem_append]
      left
      unfold planMidLines
      rw [if_neg (by simpa using hne)]
      exact List.mem_append.mpr (Or.inr (by simp))
    obtain ⟨a, b, hab⟩ := joinNL_infix_of_mem _ _ hmem
    refine ⟨a ++ ("Plan: ").data, b, ?_⟩
    unfold exportPlanText
    rw [hab]
    unfold planSummary
    simp [List.append_assoc]
  · intro heq
    unfold exportPlanText
    rw [heq]
    unfold planMidLines
    have hemp : (([] : List (Str × Str × Str)).isEmpty = true) := rfl
    rw [if_pos hemp]
    rw [List.append_assoc,
        joinNL_append (planHeaderLines mod ts) _ (by simp [planHeaderLines]) (by simp)]
    refine ⟨joinNL (planHeaderLines mod ts) ++ ['\n'],
            '\n' :: joinNL (planTailLines rendered), ?_⟩
    simp [joinNL, planTailLines, List.append_assoc]
  · unfold exportPlanText
    rw [show planHeaderLines mod ts ++ planMidLines (findBlocks rendered) rendered
          ++ planTailLines rendered =
        (planHeaderLines mod ts ++ planMidLines (findBlocks rendered) rendered)
          ++ planTailLines rendered from by simp [List.append_assoc]]
    rw [joinNL_append _ _ (by simp [planHeaderLines]) (by simp [planTailLines])]
    refine ⟨joinNL (planHeaderLines mod ts ++ planMidLines (findBlocks rendered) rendered)
              ++ ['\n', '\n'], ?_⟩
    simp [joinNL, planTailLines, List.append_assoc]

/-- Witness for C5 on the sample registry (one matched resource block). -/
theorem export_plan_spec_witness :
    exportPlanReg wRows (("demo").data) wVarsName (("TS").data) =
      (.ok (exportPlanText wMod
             (substituteAll wMod.hcl_template (mergedTable wMod wVarsName))
             (("TS").data)),
       (generateTfReg wRows (("demo").data) wVarsName).2) ∧
    (¬ findBlocks (substituteAll wMod.hcl_template (mergedTable wMod wVarsName)) = [] →
      ∃ a b, exportPlanText wMod
          (substituteAll wMod.hcl_template (mergedTable wMod wVarsName)) (("TS").data) =
        a ++ (natRepr (findBlocks
                (substituteAll wMod.hcl_template (mergedTable wMod wVarsName))).length ++
              (" to add, 0 to change, 0 to destroy.").data) ++ b) ∧
    (findBlocks (substituteAll wMod.hcl_template (mergedTable wMod wVarsName)) = [] →
      ∃ a b, exportPlanText wMod
          (substituteAll wMod.hcl_template (mergedTable wMod wVarsName)) (("TS").data) =
        a ++ (noBlocksNotice ++ '\n' :: '\n' ::
              substituteAll wMod.hcl_template (mergedTable wMod wVarsName)) ++ b) ∧
    (∃ a, exportPlanText wMod
        (substituteAll wMod.hcl_template (mergedTable wMod wVarsName)) (("TS").data) =
       a ++ renderedHclHeader ++ '\n' :: '\n' ::
         substituteAll wMod.hcl_template (mergedTable wMod wVarsName)) :=
  export_plan_spec wRows (generateTfReg wRows (("demo").data) wVarsName).2
    (("demo").data) wVarsName (("TS").data) wMod
    (substituteAll wMod.hcl_template (mergedTable wMod wVarsName))
    rfl rfl


/-- Hexadecimal digits parse back to their value. -/
theorem hexVal_hexDigitChar : ∀ n < 16, hexVal (hexDigitChar n) = some n := by decide

/-- Parsing a JSON string body inverts escaping. -/
theorem parseJStrBody_escape :
    ∀ (s : Str) (fuel : Nat) (rest : Str), s.length < fuel →
      parseJStrBody fuel (escapeStr s ++ '"' :: rest) = some (s, rest) := by
  intro s
  induction s with
  | nil =>
    intro fuel rest hf
    cases fuel with
    | zero => omega
    | succ f => rfl
  | cons c cs ih =>
    intro fuel rest hf
    cases fuel with
    | zero => omega
    | succ f =>
    have hrec := ih f rest (by simpa using Nat.lt_of_succ_lt_succ hf)
    have hesc : escapeStr (c :: cs) = escChar c ++ escapeStr cs := rfl
    rw [hesc, List.append_assoc]
    by_cases h1 : c = '"'
    · subst h1
      show parseJStrBody (f + 1) ('\\' :: '"' :: (escapeStr cs ++ '"' :: rest)) = _
      simp +decide [parseJStrBody, hrec]
    · by_cases h2 : c = '\\'
      · subst h2
        show parseJStrBody (f + 1) ('\\' :: '\\' :: (escapeStr cs ++ '"' :: rest)) = _
        simp +decide [parseJStrBody, hrec]
      · by_cases h3 : c = '\n'
        · subst h3
          show parseJStrBody (f + 1) ('\\' :: 'n' :: (escapeStr cs ++ '"' :: rest)) = _
          simp +decide [parseJStrBody, hrec]
        · by_cases h4 : c = '\t'
          · subst h4
            show parseJStrBody (f + 1) ('\\' :: 't' :: (escapeStr cs ++ '"' :: rest)) = _
            simp +decide [parseJStrBody, hrec]
          · by_cases h5 : c = '\r'
            · subst h5
              show parseJStrBody (f + 1) ('\\' :: 'r' :: (escapeStr cs ++ '"' :: rest)) = _
              simp +decide [parseJStrBody, hrec]
            · by_cases h6 : c = '\x08'
              · subst h6
                show parseJStrBody (f + 1) ('\\' :: 'b' :: (escapeStr cs ++ '"' :: rest)) = _
                simp +decide [parseJStrBody, hrec]
              · by_cases h7 : c = '\x0c'
                · subst h7
                  show parseJStrBody (f + 1) ('\\' :: 'f' :: (escapeStr cs ++ '"' :: rest)) = _
                  simp +decide [parseJStrBody, hrec]
                · by_cases h8 : c.toNat < 32
                  · have hescc : escChar c =
                        ['\\', 'u', '0', '0', hexDigitChar (c.toNat / 16),
                         hexDigitChar (c.toNat % 16)] := by
                      unfold escChar
                      rw [if_neg h1, if_neg h2, if_neg h3, if_neg h4, if_neg h5,
                          if_neg h6, if_neg h7, if_pos h8]
                    rw [show escChar c ++ (escapeStr cs ++ '"' :: rest) =
                          '\\' :: 'u' :: '0' :: '0' :: hexDigitChar (c.toNat / 16) ::
                          hexDigitChar (c.toNat % 16) :: (escapeStr cs ++ '"' :: rest) from
                        by rw [hescc]; rfl]
                    simp +decide [parseJStrBody]
                    rw [show hexVal '0' = some 0 from rfl,
                        hexVal_hexDigitChar _ (by omega : c.toNat / 16 < 16),
                        hexVal_hexDigitChar _ (by omega : c.toNat % 16 < 16)]
                    rw [hrec]
                    show some (Char.ofNat (((0 * 16 + 0) * 16 + c.toNat / 16) * 16 +
                        c.toNat % 16) :: cs, rest) = _
                    rw [show ((0 * 16 + 0) * 16 + c.toNat / 16) * 16 + c.toNat % 16 =
                          c.toNat from by omega,
                        Char.ofNat_toNat]
                  · have hescc : escChar c = [c] := by
                      unfold escChar
                      rw [if_neg h1, if_neg h2, if_neg h3, if_neg h4, if_neg h5,
                          if_neg h6, if_neg h7, if_neg h8]
                    rw [show escChar c ++ (escapeStr cs ++ '"' :: rest) =
                          c :: (escapeStr cs ++ '"' :: rest) from by rw [hescc]; rfl]
                    show parseJStrBody (f + 1) (c :: (escapeStr cs ++ '"' :: rest)) = _
                    simp only [parseJStrBody]
                    rw [if_neg h1, if_neg h2, hrec]
                    rfl

/-- A digit run followed by a non-number character parses as that number. -/
theorem takeWhile_digits_append (ds rest : Str)
    (hdig : ∀ c ∈ ds, c.isDigit = true)
    (hrest : ∀ c, rest.head? = some c → c.isDigit = false) :
    (ds ++ rest).takeWhile Char.isDigit = ds := by
  induction ds with
  | nil =>
    cases rest with
    | nil => rfl
    | cons r rs =>
      simp only [List.nil_append, List.takeWhile_cons, hrest r rfl]
      rfl
  | cons d ds ih =>
    simp only [List.cons_append, List.takeWhile_cons, hdig d (by simp)]
    rw [ih (fun c hc => hdig c (by simp [hc]))]
    rfl

/-- `parseJNat` on an encoded number followed by a delimiter. -/
theorem parseJNat_digits (ds rest : Str) (hne : ¬ ds = [])
    (hdig : ∀ c ∈ ds, c.isDigit = true)
    (hrest : ∀ c, rest.head? = some c →
      c.isDigit = false ∧ ¬ c = '.' ∧ ¬ c = 'e' ∧ ¬ c = 'E') :
    parseJNat (ds ++ rest) = some (digitsVal ds, rest) := by
  simp only [parseJNat]
  rw [takeWhile_digits_append ds rest hdig (fun c hc => (hrest c hc).1)]
  rw [List.drop_left]
  rw [if_neg (by simpa using hne)]
  have hfm : headIsFloatMark rest = false := by
    cases rest with
    | nil => rfl
    | cons r rs =>
      obtain ⟨_, hd, he, hE⟩ := hrest r rfl
      simp [headIsFloatMark, hd, he, hE]
  rw [hfm]
  rfl

/-- Escaping cannot shorten a string. -/
theorem len_escapeStr (s : Str) : s.length ≤ (escapeStr s).length := by
  induction s with
  | nil => simp [escapeStr]
  | cons c cs ih =>
    have h1 : 1 ≤ (escChar c).length := by
      unfold escChar
      split_ifs <;> simp
    have : escapeStr (c :: cs) = escChar c ++ escapeStr cs := rfl
    rw [this]
    simp only [List.length_cons, List.length_append]
    omega

/-- The delimiters that can follow an encoded scalar inside a document. -/
def delimOk (rest : Str) : Prop :=
  ∀ c, rest.head? = some c → (c = ',' ∨ c = closeBrace ∨ c = ']')

/-- Parsing inverts scalar encoding (given a following delimiter). -/
theorem parseScalar_enc (v : JScalar) (rest : Str) (hrest : delimOk rest) :
    parseScalar (encodeScalar v ++ rest) = some (v, rest) := by
  have hrestDig : ∀ c, rest.head? = some c →
      c.isDigit = false ∧ ¬ c = '.' ∧ ¬ c = 'e' ∧ ¬ c = 'E' := by
    intro c hc
    rcases hrest c hc with h | h | h <;> rw [h] <;> exact ⟨by decide, by decide, by decide, by decide⟩
  cases v with
  | jnull =>
    show (if ("ull").data.isPrefixOf (("ull").data ++ rest) = true
          then some (JScalar.jnull, (("ull").data ++ rest).drop 3) else none) =
        some (JScalar.jnull, rest)
    rw [if_pos (show (("ull").data.isPrefixOf (("ull").data ++ rest)) = true from by
          rw [List.isPrefixOf_iff_prefix]; exact List.prefix_append _ _),
        List.drop_left' (by rfl)]
  | jbool b =>
    cases b with
    | true =>
      show (if ("rue").data.isPrefixOf (("rue").data ++ rest) = true
            then some (JScalar.jbool true, (("rue").data ++ rest).drop 3) else none) =
          some (JScalar.jbool true, rest)
      rw [if_pos (show (("rue").data.isPrefixOf (("rue").data ++ rest)) = true from by
            rw [List.isPrefixOf_iff_prefix]; exact List.prefix_append _ _),
          List.drop_left' (by rfl)]
    | false =>
      show (if ("alse").data.isPrefixOf (("alse").data ++ rest) = true
            then some (JScalar.jbool false, (("alse").data ++ rest).drop 4) else none) =
          some (JScalar.jbool false, rest)
      rw [if_pos (show (("alse").data.isPrefixOf (("alse").data ++ rest)) = true from by
            rw [List.isPrefixOf_iff_prefix]; exact List.prefix_append _ _),
          List.drop_left' (by rfl)]
  | jstr s =>
    have hsh : encodeScalar (.jstr s) ++ rest = '"' :: (escapeStr s ++ '"' :: rest) := by
      show ('"' :: escapeStr s ++ ['"']) ++ rest = _
      simp
    rw [hsh]
    show (parseJStrBody ((escapeStr s ++ '"' :: rest).length + 1)
            (escapeStr s ++ '"' :: rest)).map (fun p => (JScalar.jstr p.1, p.2)) =
        some (JScalar.jstr s, rest)
    rw [parseJStrBody_escape s ((escapeStr s ++ '"' :: rest).length + 1) rest
          (by have := len_escapeStr s; simp only [List.length_append]; omega)]
    rfl
  | jint n =>
    rcases n with n | n
    · have henc : encodeScalar (.jint (Int.ofNat n)) = natRepr n := intRepr_ofNat n
      rw [henc]
      obtain ⟨c, cs, hn⟩ : ∃ c cs, natRepr n = c :: cs := by
        cases hr : natRepr n with
        | nil => exact absurd hr (natRepr_ne_nil n)
        | cons c cs => exact ⟨c, cs, rfl⟩
      have hcdig : c.isDigit = true := by
        obtain ⟨k, hk⟩ := natRepr_chars n c (by rw [hn]; simp)
        rw [hk]
        exact (digitChar_ok k).1
      rw [hn, List.cons_append]
      simp only [parseScalar]
      rw [if_neg (fun h => by rw [h] at hcdig; exact absurd hcdig (by decide)),
          if_neg (fun h => by rw [h] at hcdig; exact absurd hcdig (by decide)),
          if_neg (fun h => by rw [h] at hcdig; exact absurd hcdig (by decide)),
          if_neg (fun h => by rw [h] at hcdig; exact absurd hcdig (by decide)),
          if_neg (fun h => by rw [h] at hcdig; exact absurd hcdig (by decide)),
          if_pos hcdig]
      rw [show (c :: (cs ++ rest)) = (c :: cs) ++ rest from rfl, ← hn]
      rw [parseJNat_digits (natRepr n) rest (by simpa using natRepr_ne_nil n)
            (fun d hd => by obtain ⟨k, hk⟩ := natRepr_chars n d hd; rw [hk];
                            exact (digitChar_ok k).1)
            hrestDig]
      rw [digitsVal_natRepr]
      rfl
    · have henc : encodeScalar (.jint (Int.negSucc n)) = '-' :: natRepr (n + 1) := by
        show intRepr (Int.negSucc n) = _
        unfold intRepr
        rw [if_pos (Int.negSucc_lt_zero n)]
        rfl
      rw [henc, List.cons_append]
      show (parseJNat (natRepr (n + 1) ++ rest)).map
            (fun p => (JScalar.jint (-(p.1 : Int)), p.2)) =
          some (JScalar.jint (Int.negSucc n), rest)
      rw [parseJNat_digits (natRepr (n + 1)) rest (by simpa using natRepr_ne_nil (n + 1))
            (fun d hd => by obtain ⟨k, hk⟩ := natRepr_chars (n + 1) d hd; rw [hk];
                            exact (digitChar_ok k).1)
            hrestDig]
      rw [digitsVal_natRepr,
          show Int.negSucc n = -((n + 1 : Nat) : Int) from by
            rw [Int.negSucc_eq]; push_cast; ring]
      rfl

/-- Skipping whitespace stops at a non-whitespace head. -/
theorem skipWs_cons_not (c : Char) (t : Str) (h : jsonWs c = false) :
    skipWs (c :: t) = c :: t := by
  simp [skipWs, List.dropWhile_cons, h]

/-- Skipping whitespace passes a space. -/
theorem skipWs_cons_space (t : Str) : skipWs (' ' :: t) = skipWs t := by
  simp [skipWs, List.dropWhile_cons, show jsonWs ' ' = true from rfl]

/-- JSON whitespace characters are Python whitespace. -/
theorem jsonWs_eq_false (c : Char) (h : isPySpace c = false) : jsonWs c = false := by
  cases hj : jsonWs c
  · rfl
  · exfalso
    have hmem : c = ' ' ∨ c = '\t' ∨ c = '\n' ∨ c = '\r' := by
      simpa [jsonWs, List.contains] using hj
    rcases hmem with rfl | rfl | rfl | rfl <;> simp [isPySpace] at h
  
/-- An encoded scalar never starts with whitespace. -/
theorem skipWs_encodeScalar (v : JScalar) (X : Str) :
    skipWs (encodeScalar v ++ X) = encodeScalar v ++ X := by
  cases v with
  | jnull => exact skipWs_cons_not 'n' _ (by decide)
  | jbool b => cases b with
    | true => exact skipWs_cons_not 't' _ (by decide)
    | false => exact skipWs_cons_not 'f' _ (by decide)
  | jstr s =>
    show skipWs ('"' :: (escapeStr s ++ ['"'] ++ X)) = _
    exact skipWs_cons_not '"' _ (by decide)
  | jint n =>
    rcases n with n | n
    · obtain ⟨c, cs, hn⟩ : ∃ c cs, natRepr n = c :: cs := by
        cases hr : natRepr n with
        | nil => exact absurd hr (natRepr_ne_nil n)
        | cons c cs => exact ⟨c, cs, rfl⟩
      have henc : encodeScalar (.jint (Int.ofNat n)) ++ X = c :: (cs ++ X) := by
        rw [show encodeScalar (.jint (Int.ofNat n)) = natRepr n from intRepr_ofNat n, hn]
        rfl
      rw [henc]
      obtain ⟨k, hk⟩ := natRepr_chars n c (by rw [hn]; simp)
      exact skipWs_cons_not c _ (jsonWs_eq_false c (by rw [hk]; exact (digitChar_ok k).2.1))
    · have henc : encodeScalar (.jint (Int.negSucc n)) ++ X =
          '-' :: (natRepr (n + 1) ++ X) := by
        rw [show encodeScalar (.jint (Int.negSucc n)) = '-' :: natRepr (n + 1) from by
          show intRepr (Int.negSucc n) = _
          unfold intRepr
          rw [if_pos (Int.negSucc_lt_zero n)]
          rfl]
        rfl
      rw [henc]
      exact skipWs_cons_not '-' _ (by decide)

/-- A member list cannot be whitespace-headed. -/
theorem delimOk_cons (c : Char) (t : Str) (h : c = ',' ∨ c = closeBrace ∨ c = ']') :
    delimOk (c :: t) := by
  intro d hd
  have : d = c := by simpa using hd.symm
  rw [this]
  exact h

/-- Encoded member text starts with a quote. -/
theorem membersText_cons_head (kv : Str × JScalar) (more : List (Str × JScalar)) (X : Str) :
    ∃ Z, membersText (kv :: more) ++ X = '"' :: Z := by
  cases more with
  | nil =>
    refine ⟨escapeStr kv.1 ++ '"' :: (':' :: ' ' :: (encodeScalar kv.2 ++ X)), ?_⟩
    show memberEnc kv ++ X = _
    unfold memberEnc encodeJStr
    simp [List.append_assoc]
  | cons kv2 more2 =>
    refine ⟨escapeStr kv.1 ++ '"' :: (':' :: ' ' :: (encodeScalar kv.2 ++
      ',' :: ' ' :: (membersText (kv2 :: more2) ++ X))), ?_⟩
    show (memberEnc kv ++ (", ").data ++ membersText (kv2 :: more2)) ++ X = _
    unfold memberEnc encodeJStr
    simp [List.append_assoc]

/-- Parsing inverts flat-object member encoding. -/
theorem parseMembers_enc :
    ∀ (ms : List (Str × JScalar)) (fuel : Nat) (rest : Str), ¬ ms = [] →
      ms.length < fuel →
      parseMembers fuel (membersText ms ++ closeBrace :: rest) = some (ms, rest) := by
  intro ms
  induction ms with
  | nil => intro fuel rest h _; exact absurd rfl h
  | cons kv more ih =>
    intro fuel rest _ hf
    cases fuel with
    | zero => omega
    | succ f =>
    cases more with
    | nil =>
      have hshape : membersText [kv] ++ closeBrace :: rest =
          '"' :: (escapeStr kv.1 ++ '"' ::
            (':' :: ' ' :: (encodeScalar kv.2 ++ closeBrace :: rest))) := by
        show memberEnc kv ++ closeBrace :: rest = _
        unfold memberEnc encodeJStr
        simp [List.append_assoc]
      rw [hshape]
      simp only [parseMembers]
      rw [parseJStrBody_escape kv.1
            ((escapeStr kv.1 ++ '"' ::
              (':' :: ' ' :: (encodeScalar kv.2 ++ closeBrace :: rest))).length + 1)
            (':' :: ' ' :: (encodeScalar kv.2 ++ closeBrace :: rest))
            (by have := len_escapeStr kv.1; simp only [List.length_append]; omega)]
      simp only []
      rw [skipWs_cons_not ':' _ (by decide)]
      simp only []
      rw [skipWs_cons_space, skipWs_encodeScalar,
          parseScalar_enc kv.2 _ (delimOk_cons _ _ (Or.inr (Or.inl rfl)))]
      simp only []
      rw [skipWs_cons_not closeBrace _ (by decide)]
      rfl
    | cons kv2 more2 =>
      have hshape : membersText (kv :: kv2 :: more2) ++ closeBrace :: rest =
          '"' :: (escapeStr kv.1 ++ '"' ::
            (':' :: ' ' :: (encodeScalar kv.2 ++
              ',' :: ' ' :: (membersText (kv2 :: more2) ++ closeBrace :: rest)))) := by
        show (memberEnc kv ++ (", ").data ++ membersText (kv2 :: more2)) ++
            closeBrace :: rest = _
        unfold memberEnc encodeJStr
        simp [List.append_assoc]
      rw [hshape]
      simp only [parseMembers]
      rw [parseJStrBody_escape kv.1
            ((escapeStr kv.1 ++ '"' ::
              (':' :: ' ' :: (encodeScalar kv.2 ++
                ',' :: ' ' :: (membersText (kv2 :: more2) ++ closeBrace :: rest)))).length + 1)
            (':' :: ' ' :: (encodeScalar kv.2 ++
              ',' :: ' ' :: (membersText (kv2 :: more2) ++ closeBrace :: rest)))
            (by have := len_escapeStr kv.1; simp only [List.length_append]; omega)]
      simp only []
      rw [skipWs_cons_not ':' _ (by decide)]
      simp only []
      rw [skipWs_cons_space, skipWs_encodeScalar,
          parseScalar_enc kv.2 _ (delimOk_cons _ _ (Or.inl rfl))]
      simp only []
      rw [skipWs_cons_not ',' _ (by decide)]
      simp only []
      rw [skipWs_cons_space]
      have hsk : skipWs (membersText (kv2 :: more2) ++ closeBrace :: rest) =
          membersText (kv2 :: more2) ++ closeBrace :: rest := by
        obtain ⟨Z, hZ⟩ := membersText_cons_head kv2 more2 (closeBrace :: rest)
        rw [hZ]
        exact skipWs_cons_not '"' _ (by decide)
      rw [hsk, ih f rest (by simp) (by simp at hf ⊢; omega)]
      rfl

/-- Parsing inverts flat-object encoding. -/
theorem parseFlatObj_enc (ms : List (Str × JScalar)) (fuel : Nat) (rest : Str)
    (hb : ms.length < fuel) :
    parseFlatObj fuel (encodeFlatObj ms ++ rest) = some (ms, rest) := by
  cases ms with
  | nil =>
    show parseFlatObj fuel (openBrace :: closeBrace :: rest) = some ([], rest)
    rfl
  | cons kv more =>
    have hshape : encodeFlatObj (kv :: more) ++ rest =
        openBrace :: (membersText (kv :: more) ++ closeBrace :: rest) := by
      show (openBrace :: membersText (kv :: more) ++ [closeBrace]) ++ rest = _
      simp [List.append_assoc]
    obtain ⟨Z, hZ⟩ := membersText_cons_head kv more (closeBrace :: rest)
    rw [hshape]
    simp only [parseFlatObj]
    rw [if_pos trivial,
        show skipWs (membersText (kv :: more) ++ closeBrace :: rest) = '"' :: Z from by
          rw [hZ]; exact skipWs_cons_not '"' _ (by decide)]
    simp only []
    rw [if_neg (by decide), ← hZ,
        parseMembers_enc (kv :: more) fuel rest (by simp) hb]

/-- Encoded object-array text starts with an opening brace. -/
theorem objsText_cons_head (ms : List (Str × JScalar))
    (more : List (List (Str × JScalar))) (X : Str) :
    ∃ Z, objsText (ms :: more) ++ X = openBrace :: Z := by
  cases more with
  | nil =>
    refine ⟨membersText ms ++ closeBrace :: X, ?_⟩
    show encodeFlatObj ms ++ X = _
    show (openBrace :: membersText ms ++ [closeBrace]) ++ X = _
    simp [List.append_assoc]
  | cons ms2 more2 =>
    refine ⟨membersText ms ++ closeBrace ::
      (',' :: ' ' :: (objsText (ms2 :: more2) ++ X)), ?_⟩
    show (encodeFlatObj ms ++ (", ").data ++ objsText (ms2 :: more2)) ++ X = _
    show ((openBrace :: membersText ms ++ [closeBrace]) ++ (", ").data ++
          objsText (ms2 :: more2)) ++ X = _
    simp [List.append_assoc]

/-- Parsing inverts object-array element encoding. -/
theorem parseObjArrElems_enc :
    ∀ (l : List (List (Str × JScalar))) (fuel : Nat) (rest : Str), ¬ l = [] →
      (l.map (fun ms => ms.length + 1)).sum < fuel →
      parseObjArrElems fuel (objsText l ++ ']' :: rest) = some (l, rest) := by
  intro l
  induction l with
  | nil => intro fuel rest h _; exact absurd rfl h
  | cons ms more ih =>
    intro fuel rest _ hf
    cases fuel with
    | zero => omega
    | succ f =>
    have hfsum : ms.length < f := by simp at hf; omega
    cases more with
    | nil =>
      show parseObjArrElems (f + 1) (encodeFlatObj ms ++ ']' :: rest) = _
      simp only [parseObjArrElems]
      rw [parseFlatObj_enc ms f (']' :: rest) hfsum]
      simp only []
      rw [skipWs_cons_not ']' _ (by decide)]
      rfl
    | cons ms2 more2 =>
      have hshape : objsText (ms :: ms2 :: more2) ++ ']' :: rest =
          encodeFlatObj ms ++ (',' :: ' ' :: (objsText (ms2 :: more2) ++ ']' :: rest)) := by
        show (encodeFlatObj ms ++ (", ").data ++ objsText (ms2 :: more2)) ++ ']' :: rest = _
        simp [List.append_assoc]
      rw [hshape]
      simp only [parseObjArrElems]
      rw [parseFlatObj_enc ms f _ hfsum]
      simp only []
      rw [skipWs_cons_not ',' _ (by decide)]
      simp only []
      rw [skipWs_cons_space]
      have hsk : skipWs (objsText (ms2 :: more2) ++ ']' :: rest) =
          objsText (ms2 :: more2) ++ ']' :: rest := by
        obtain ⟨Z, hZ⟩ := objsText_cons_head ms2 more2 (']' :: rest)
        rw [hZ]
        exact skipWs_cons_not openBrace _ (by decide)
      rw [hsk, ih f rest (by simp) (by simp at hf ⊢; omega)]
      rfl

/-- A string literal is at least two characters. -/
theorem len_encodeJStr (s : Str) : 1 ≤ (encodeJStr s).length := by
  show 1 ≤ ('"' :: escapeStr s ++ ['"']).length
  simp

/-- Member text is at least as long as the member count. -/
theorem len_membersText (ms : List (Str × JScalar)) : ms.length ≤ (membersText ms).length := by
  induction ms with
  | nil => simp [membersText, intercalateSep]
  | cons kv more ih =>
    cases more with
    | nil =>
      show 1 ≤ (memberEnc kv).length
      have := len_encodeJStr kv.1
      show 1 ≤ (encodeJStr kv.1 ++ ((": ").data) ++ encodeScalar kv.2).length
      simp only [List.length_append]
      omega
    | cons kv2 more2 =>
      show (kv :: kv2 :: more2).length ≤
        (memberEnc kv ++ (", ").data ++ membersText (kv2 :: more2)).length
      have h1 := len_encodeJStr kv.1
      have h2 : (memberEnc kv).length ≥ 1 := by
        show 1 ≤ (encodeJStr kv.1 ++ ((": ").data) ++ encodeScalar kv.2).length
        simp only [List.length_append]
        omega
      simp only [List.length_append, List.length_cons] at ih ⊢
      omega

/-- Object-array text is at least as long as the summed member counts. -/
theorem len_objsText (l : List (List (Str × JScalar))) :
    (l.map (fun ms => ms.length + 1)).sum ≤ (objsText l).length := by
  induction l with
  | nil => simp [objsText, intercalateSep]
  | cons ms more ih =>
    have hone : ms.length + 1 ≤ (encodeFlatObj ms).length := by
      show ms.length + 1 ≤ (openBrace :: membersText ms ++ [closeBrace]).length
      have := len_membersText ms
      simp only [List.length_cons, List.length_append, List.length_singleton]
      omega
    cases more with
    | nil => simpa [objsText, intercalateSep] using hone
    | cons ms2 more2 =>
      show _ ≤ (encodeFlatObj ms ++ (", ").data ++ objsText (ms2 :: more2)).length
      simp only [List.map_cons, List.sum_cons, List.length_append] at ih ⊢
      omega

/-- Parsing inverts object-array encoding. -/
theorem parseObjArr_enc (l : List (List (Str × JScalar))) (fuel : Nat) (rest : Str)
    (hb : (l.map (fun ms => ms.length + 1)).sum < fuel) :
    parseObjArr fuel (encodeObjArr l ++ rest) = some (l, rest) := by
  cases l with
  | nil =>
    show parseObjArr fuel ('[' :: ']' :: rest) = some ([], rest)
    rfl
  | cons ms more =>
    have hshape : encodeObjArr (ms :: more) ++ rest =
        '[' :: (objsText (ms :: more) ++ ']' :: rest) := by
      show ('[' :: objsText (ms :: more) ++ [']']) ++ rest = _
      simp [List.append_assoc]
    obtain ⟨Z, hZ⟩ := objsText_cons_head ms more (']' :: rest)
    rw [hshape]
    show (match skipWs (objsText (ms :: more) ++ ']' :: rest) with
          | ']' :: r => some ([], r)
          | s1 => parseObjArrElems fuel s1) = _
    rw [show skipWs (objsText (ms :: more) ++ ']' :: rest) = openBrace :: Z from by
          rw [hZ]; exact skipWs_cons_not openBrace _ (by decide)]
    show parseObjArrElems fuel (openBrace :: Z) = _
    rw [← hZ, parseObjArrElems_enc (ms :: more) fuel rest (by simp) hb]

/-- `json.loads` inverts the serialization of an array of flat records. -/
theorem jsonLoadsObjArr_enc (l : List (List (Str × JScalar))) :
    jsonLoadsObjArr (encodeObjArr l) = some l := by
  unfold jsonLoadsObjArr
  have hskip : skipWs (encodeObjArr l) = encodeObjArr l := by
    show skipWs ('[' :: objsText l ++ [']']) = _
    exact skipWs_cons_not '[' _ (by decide)
  have hbound : (l.map (fun ms => ms.length + 1)).sum < (encodeObjArr l).length + 1 := by
    have h1 := len_objsText l
    show _ < ('[' :: objsText l ++ [']']).length + 1
    simp only [List.length_cons, List.length_append, List.length_singleton]
    omega
  have hparse := parseObjArr_enc l ((encodeObjArr l).length + 1) [] hbound
  rw [List.append_nil] at hparse
  rw [hskip, hparse]
  rfl

/-- Encoded string-array text starts with a quote. -/
theorem strsText_cons_head (s : Str) (more : List Str) (X : Str) :
    ∃ Z, strsText (s :: more) ++ X = '"' :: (escapeStr s ++ '"' :: Z) := by
  cases more with
  | nil =>
    refine ⟨X, ?_⟩
    show encodeJStr s ++ X = _
    show ('"' :: escapeStr s ++ ['"']) ++ X = _
    simp [List.append_assoc]
  | cons s2 more2 =>
    refine ⟨',' :: ' ' :: (strsText (s2 :: more2) ++ X), ?_⟩
    show (encodeJStr s ++ (", ").data ++ strsText (s2 :: more2)) ++ X = _
    show (('"' :: escapeStr s ++ ['"']) ++ (", ").data ++ strsText (s2 :: more2)) ++ X = _
    simp [List.append_assoc]

/-- Parsing inverts string-array element encoding. -/
theorem parseStrArrElems_enc :
    ∀ (l : List Str) (fuel : Nat) (rest : Str), ¬ l = [] → l.length < fuel →
      parseStrArrElems fuel (strsText l ++ ']' :: rest) = some (l, rest) := by
  intro l
  induction l with
  | nil => intro fuel rest h _; exact absurd rfl h
  | cons s more ih =>
    intro fuel rest _ hf
    cases fuel with
    | zero => omega
    | succ f =>
    obtain ⟨Z, hZ⟩ := strsText_cons_head s more (']' :: rest)
    rw [hZ]
    simp only [parseStrArrElems]
    rw [parseJStrBody_escape s ((escapeStr s ++ '"' :: Z).length + 1) Z
          (by have := len_escapeStr s; simp only [List.length_append]; omega)]
    simp only []
    cases more with
    | nil =>
      have hZval : Z = ']' :: rest := by
        have h2 : strsText [s] ++ ']' :: rest = '"' :: (escapeStr s ++ '"' :: (']' :: rest)) := by
          show encodeJStr s ++ ']' :: rest = _
          show ('"' :: escapeStr s ++ ['"']) ++ ']' :: rest = _
          simp [List.append_assoc]
        have := hZ.symm.trans h2
        simpa using this
      rw [hZval, skipWs_cons_not ']' _ (by decide)]
      rfl
    | cons s2 more2 =>
      have hZval : Z = ',' :: ' ' :: (strsText (s2 :: more2) ++ ']' :: rest) := by
        have h2 : strsText (s :: s2 :: more2) ++ ']' :: rest =
            '"' :: (escapeStr s ++ '"' ::
              (',' :: ' ' :: (strsText (s2 :: more2) ++ ']' :: rest))) := by
          show (encodeJStr s ++ (", ").data ++ strsText (s2 :: more2)) ++ ']' :: rest = _
          show (('"' :: escapeStr s ++ ['"']) ++ (", ").data ++ strsText (s2 :: more2)) ++
              ']' :: rest = _
          simp [List.append_assoc]
        have := hZ.symm.trans h2
        simpa using this
      rw [hZval, skipWs_cons_not ',' _ (by decide)]
      simp only []
      rw [skipWs_cons_space]
      have hsk : skipWs (strsText (s2 :: more2) ++ ']' :: rest) =
          strsText (s2 :: more2) ++ ']' :: rest := by
        obtain ⟨Z2, hZ2⟩ := strsText_cons_head s2 more2 (']' :: rest)
        rw [hZ2]
        exact skipWs_cons_not '"' _ (by decide)
      rw [hsk, ih f rest (by simp) (by simp at hf ⊢; omega)]
      rfl

/-- String-array text is at least as long as the element count. -/
theorem len_strsText (l : List Str) : l.length ≤ (strsText l).length := by
  induction l with
  | nil => simp [strsText, intercalateSep]
  | cons s more ih =>
    cases more with
    | nil => simpa [strsText, intercalateSep] using len_encodeJStr s
    | cons s2 more2 =>
      show (s :: s2 :: more2).length ≤
        (encodeJStr s ++ (", ").data ++ strsText (s2 :: more2)).length
      have := len_encodeJStr s
      simp only [List.length_cons, List.length_append] at ih ⊢
      omega

/-- Parsing inverts string-array encoding. -/
theorem parseStrArr_enc (l : List Str) (fuel : Nat) (rest : Str) (hb : l.length < fuel) :
    parseStrArr fuel (encodeStrArr l ++ rest) = some (l, rest) := by
  cases l with
  | nil =>
    show parseStrArr fuel ('[' :: ']' :: rest) = some ([], rest)
    rfl
  | cons s more =>
    have hshape : encodeStrArr (s :: more) ++ rest =
        '[' :: (strsText (s :: more) ++ ']' :: rest) := by
      show ('[' :: strsText (s :: more) ++ [']']) ++ rest = _
      simp [List.append_assoc]
    obtain ⟨Z, hZ⟩ := strsText_cons_head s more (']' :: rest)
    rw [hshape]
    show (match skipWs (strsText (s :: more) ++ ']' :: rest) with
          | ']' :: r => some ([], r)
          | s1 => parseStrArrElems fuel s1) = _
    rw [show skipWs (strsText (s :: more) ++ ']' :: rest) =
          '"' :: (escapeStr s ++ '"' :: Z) from by
        rw [hZ]; exact skipWs_cons_not '"' _ (by decide)]
    show parseStrArrElems fuel ('"' :: (escapeStr s ++ '"' :: Z)) = _
    rw [← hZ, parseStrArrElems_enc (s :: more) fuel rest (by simp) hb]

/-- `json.loads` inverts the serialization of a string list. -/
theorem jsonLoadsStrArr_enc (l : List Str) :
    jsonLoadsStrArr (encodeStrArr l) = some l := by
  unfold jsonLoadsStrArr
  have hskip : skipWs (encodeStrArr l) = encodeStrArr l := by
    show skipWs ('[' :: strsText l ++ [']']) = _
    exact skipWs_cons_not '[' _ (by decide)
  have hbound : l.length < (encodeStrArr l).length + 1 := by
    have h1 := len_strsText l
    show _ < ('[' :: strsText l ++ [']']).length + 1
    simp only [List.length_cons, List.length_append, List.length_singleton]
    omega
  have hparse := parseStrArr_enc l ((encodeStrArr l).length + 1) [] hbound
  rw [List.append_nil] at hparse
  rw [hskip, hparse]
  rfl

/-- Reading back a stored default is the identity. -/
theorem scalarToDefault_defaultToScalar (d : Option Value) :
    scalarToDefault (defaultToScalar d) = d := by
  cases d with
  | none => rfl
  | some v => cases v <;> rfl

/-- `TerraformVariable(**asdict(v))` reconstructs the variable. -/
theorem varFrom_varTo (v : TerraformVariable) :
    varFromMembers (varToMembers v) = some v := by
  show some { name := v.name, type := v.type, description := v.description,
              default := scalarToDefault (defaultToScalar v.default),
              required := v.required, sensitive := v.sensitive } = some v
  rw [scalarToDefault_defaultToScalar]

/-- `TerraformOutput(**asdict(o))` reconstructs the output. -/
theorem outFrom_outTo (o : TerraformOutput) :
    outFromMembers (outToMembers o) = some o := rfl

/-- `TerraformExample(**asdict(e))` reconstructs the example. -/
theorem exampleFrom_exampleTo (e : TerraformExample) :
    exampleFromMembers (exampleToMembers e) = some e := rfl

/-- `mapM` over pointwise-inverted encodings recovers the list. -/
theorem mapM_loop_roundtrip {α β : Type} (enc : α → β) (dec : β → Option α)
    (h : ∀ a, dec (enc a) = some a) :
    ∀ (l : List α) (acc : List α),
      List.mapM.loop dec (l.map enc) acc = some (acc.reverse ++ l) := by
  intro l
  induction l with
  | nil => intro acc; simp [List.mapM.loop]
  | cons a l ih =>
    intro acc
    simp only [List.map_cons, List.mapM.loop, h a]
    show List.mapM.loop dec (List.map enc l) (a :: acc) = some (acc.reverse ++ a :: l)
    rw [ih (a :: acc)]
    simp

/-- `mapM` over an encoded list recovers it. -/
theorem mapM_roundtrip {α β : Type} (enc : α → β) (dec : β → Option α)
    (h : ∀ a, dec (enc a) = some a) (l : List α) :
    (l.map enc).mapM dec = some l := by
  show List.mapM.loop dec (l.map enc) [] = some l
  rw [mapM_loop_roundtrip enc dec h l []]
  rfl

/-- C7 core: a stored row deserializes back to the exact module that was
saved (the serialization of variables, outputs, examples and tags is
lossless). -/
theorem rowToModule_rowOfModule (m : TerraformModule) :
    rowToModule (rowOfModule m) = some m := by
  have hvars : jsonLoadsObjArr (orBrackets (encodeVarsJson m.variables)) =
      some (m.variables.map varToMembers) := by
    rw [show orBrackets (encodeVarsJson m.variables) = encodeVarsJson m.variables from by
      show orBrackets ('[' :: objsText (m.variables.map varToMembers) ++ [']']) = _
      rfl]
    exact jsonLoadsObjArr_enc _
  have houts : jsonLoadsObjArr (orBrackets (encodeOutsJson m.outputs)) =
      some (m.outputs.map outToMembers) := by
    rw [show orBrackets (encodeOutsJson m.outputs) = encodeOutsJson m.outputs from by
      show orBrackets ('[' :: objsText (m.outputs.map outToMembers) ++ [']']) = _
      rfl]
    exact jsonLoadsObjArr_enc _
  have hexs : jsonLoadsObjArr (orBrackets (encodeExsJson m.examples)) =
      some (m.examples.map exampleToMembers) := by
    rw [show orBrackets (encodeExsJson m.examples) = encodeExsJson m.examples from by
      show orBrackets ('[' :: objsText (m.examples.map exampleToMembers) ++ [']']) = _
      rfl]
    exact jsonLoadsObjArr_enc _
  have htags : jsonLoadsStrArr (orBrackets (encodeStrArr m.tags)) = some m.tags := by
    rw [show orBrackets (encodeStrArr m.tags) = encodeStrArr m.tags from by
      show orBrackets ('[' :: strsText m.tags ++ [']']) = _
      rfl]
    exact jsonLoadsStrArr_enc _
  show (jsonLoadsObjArr (orBrackets (rowOfModule m).variables)).bind _ = _
  rw [show (rowOfModule m).variables = encodeVarsJson m.variables from rfl, hvars]
  show (Option.bind (some _) _) = _
  rw [Option.some_bind]
  rw [mapM_roundtrip varToMembers varFromMembers varFrom_varTo m.variables]
  show (jsonLoadsObjArr (orBrackets (rowOfModule m).outputs)).bind _ = _
  rw [show (rowOfModule m).outputs = encodeOutsJson m.outputs from rfl, houts,
      Option.some_bind,
      mapM_roundtrip outToMembers outFromMembers outFrom_outTo m.outputs]
  show (jsonLoadsObjArr (orBrackets (rowOfModule m).examples)).bind _ = _
  rw [show (rowOfModule m).examples = encodeExsJson m.examples from rfl, hexs,
      Option.some_bind,
      mapM_roundtrip exampleToMembers exampleFromMembers exampleFrom_exampleTo m.examples]
  show (jsonLoadsStrArr (orBrackets (rowOfModule m).tags)).bind _ = _
  rw [show (rowOfModule m).tags = encodeStrArr m.tags from rfl, htags, Option.some_bind]
  rfl

/-- `_save` on a registry with no id collision appends the module's row
(provided the insert does not hit the unique-name index). -/
theorem saveRow_fresh (rows : Registry) (m : TerraformModule)
    (hid : ∀ r ∈ rows, r.id ≠ m.id) (rows2 : Registry)
    (h : saveRow rows m = some rows2) : rows2 = rows ++ [rowOfModule m] := by
  have h1 : rows.any (fun r => r.id = m.id) = false := by
    rw [List.any_eq_false]
    intro r hr
    simpa using hid r hr
  simp only [saveRow, h1, Bool.false_eq_true, if_false] at h
  by_cases h2 : rows.any (fun r => r.name = m.name) = true
  · rw [if_pos h2] at h
    exact Option.noConfusion h
  · rw [if_neg h2] at h
    injection h with h
    exact h.symm

/-- `get_module` by a fresh id on a registry ending in that id's row
returns the deserialized module. -/
theorem getModuleReg_append_fresh (rows : Registry) (m : TerraformModule)
    (hfresh : ∀ r ∈ rows, r.id ≠ m.id ∧ r.name ≠ m.id) :
    getModuleReg (rows ++ [rowOfModule m]) m.id = .ok m := by
  have hfind : findRowRef (rows ++ [rowOfModule m]) m.id = some (rowOfModule m) := by
    rw [findRowRef, List.find?_append]
    have h0 : rows.find? (fun r => r.id = m.id || r.name = m.id) = none := by
      rw [List.find?_eq_none]
      intro r hr
      simp [(hfresh r hr).1, (hfresh r hr).2]
    rw [h0]
    show ([rowOfModule m].find? (fun r => r.id = m.id || r.name = m.id)) = _
    rw [List.find?_cons_of_pos]
    simp [rowOfModule]
  show (match findRowRef (rows ++ [rowOfModule m]) m.id with
        | none => Except.error RegError.notFound
        | some row =>
            match rowToModule row with
            | none => Except.error RegError.decodeError
            | some m => Except.ok m) = Except.ok m
  rw [hfind]
  show (match rowToModule (rowOfModule m) with
        | none => Except.error RegError.decodeError
        | some m => Except.ok m) = Except.ok m
  rw [rowToModule_rowOfModule]

/-- C7: a successful `register_module` followed by `get_module` on the fresh
identity round-trips losslessly: the returned record is the registered one,
so its name, provider, version, template text, variables and outputs are
exactly those supplied at registration (freshness of the generated id over
the pre-existing rows models `uuid.uuid4()`). -/
theorem register_get_roundtrip
    (rows : Registry) (name provider resource_type hcl_template : Str)
    (vs : List TerraformVariable) (outs : List TerraformOutput)
    (descr : Str) (exs : List TerraformExample) (tags : List Str)
    (version newId createdAt : Str) (mod : TerraformModule) (rows2 : Registry)
    (hfresh : ∀ r ∈ rows, r.id ≠ newId ∧ r.name ≠ newId)
    (hreg : registerModule rows name provider resource_type hcl_template vs outs
        descr exs tags version newId createdAt = .ok (mod, rows2)) :
    getModuleReg rows2 newId = .ok mod ∧
    mod.name = name ∧ mod.provider = provider ∧ mod.version = version ∧
    mod.hcl_template = hcl_template ∧ mod.variables = vs ∧ mod.outputs = outs := by
  simp only [registerModule] at hreg
  split at hreg
  · exact Except.noConfusion hreg
  split at hreg
  · exact Except.noConfusion hreg
  split at hreg
  · exact Except.noConfusion hreg
  next rows2' hsv =>
    rw [Except.ok.injEq, Prod.mk.injEq] at hreg
    obtain ⟨hmod, hrows⟩ := hreg
    subst hmod
    subst hrows
    have hrows2 := saveRow_fresh rows _ (fun r hr => (hfresh r hr).1) rows2' hsv
    subst hrows2
    exact ⟨getModuleReg_append_fresh rows _ (fun r hr => hfresh r hr), rfl, rfl,
      rfl, rfl, rfl, rfl⟩

/-- C7 witness: the round trip at a concrete registration over the empty
registry. -/
theorem register_get_roundtrip_witness :
    getModuleReg [rowOfModule wRegMod] (("id-9").data) = .ok wRegMod ∧
    wRegMod.name = ("demo2").data ∧ wRegMod.provider = ("aws").data ∧
    wRegMod.version = ("0.1.0").data ∧ wRegMod.hcl_template = wTplOk ∧
    wRegMod.variables = [wVarName] ∧ wRegMod.outputs = [wOut] :=
  register_get_roundtrip [] (("demo2").data) (("aws").data)
    (("aws_instance").data) wTplOk [wVarName] [wOut] (("d").data) [] [("t").data]
    (("0.1.0").data) (("id-9").data) (("2024-02-02T00:00:00+00:00").data)
    wRegMod [rowOfModule wRegMod] (by simp) rfl

/-- C6 counterexample: in `cexMod6`, the placeholder of the optional,
defaultless, unsupplied variable `a` occurs in the template, generation
succeeds, yet the output `XV\x7d` no longer contains `$\x7bvar.a\x7d`: the
substitution of the undeclared caller key `c$\x7bvar.a` consumed it. -/
theorem generate_tf_placeholder_cex :
    (cexVar6 ∈ cexMod6.variables ∧ cexVar6.default = none ∧
     cexVar6.required = false ∧ dictHas cexVars6 cexVar6.name = false ∧
     List.IsInfix (placeholder cexVar6.name) cexMod6.hcl_template) ∧
    generateTfPure cexMod6 cexVars6 = .ok (("XV\x7d").data) ∧
    ¬ List.IsInfix (placeholder cexVar6.name) (("XV\x7d").data) := by
  exact ⟨⟨by decide, rfl, rfl, by decide, by decide⟩, rfl, by decide⟩

/-- If `k` and `a` contain no closing brace and `k\x7d` is a prefix of
`a\x7d y`, the keys agree: the closing brace pins the end of the key. -/
theorem key_brace_agree :
    ∀ (k a y : Str), closeBrace ∉ k → closeBrace ∉ a →
      (k ++ [closeBrace]) <+: (a ++ closeBrace :: y) → k = a := by
  intro k
  induction k with
  | nil =>
    intro a y _ ha h
    cases a with
    | nil => rfl
    | cons c a' =>
      rw [List.nil_append, List.cons_append] at h
      rcases List.cons_prefix_cons.mp h with ⟨hc, -⟩
      exact absurd (by rw [hc]; exact List.mem_cons_self c a') ha
  | cons c k' ih =>
    intro a y hk ha h
    cases a with
    | nil =>
      rw [List.cons_append, List.nil_append] at h
      rcases List.cons_prefix_cons.mp h with ⟨hc, -⟩
      exact absurd (by rw [hc]; exact List.mem_cons_self closeBrace k') hk
    | cons c2 a' =>
      rw [List.cons_append, List.cons_append] at h
      rcases List.cons_prefix_cons.mp h with ⟨hc, htl⟩
      rw [hc, ih a' y (fun hm => hk (List.mem_cons_of_mem c hm))
        (fun hm => ha (List.mem_cons_of_mem c2 hm)) htl]

/-- The pattern of a different brace-free key never matches at the start of
the placeholder of `a`. -/
theorem placeholder_nomatch_self (k a y : Str) (hka : k ≠ a)
    (hk : closeBrace ∉ k) (ha : closeBrace ∉ a) :
    ¬ ((placeholder k).isPrefixOf (placeholder a ++ y) = true) := by
  rw [List.isPrefixOf_iff_prefix]
  intro h
  simp only [placeholder, List.append_assoc, List.prefix_append_right_inj,
    List.singleton_append] at h
  exact hka (key_brace_agree k a y hk ha h)

/-- The scanner of `str.replace` copies verbatim any stretch of text none of
whose characters can start a match. -/
theorem replFuel_skip (p r : Str) (hp : p ≠ []) :
    ∀ (B : Str), (∀ c ∈ B, p.head? ≠ some c) →
      ∀ (fuel : Nat) (y : Str), B.length + y.length ≤ fuel →
        replFuel p r fuel (B ++ y) = B ++ replFuel p r (fuel - B.length) y := by
  intro B
  induction B with
  | nil =>
    intro _ fuel y _
    simp
  | cons c B' ih =>
    intro hB fuel y h
    cases fuel with
    | zero =>
      exfalso
      simp only [List.length_cons] at h
      omega
    | succ f =>
      have hlen : B'.length + y.length ≤ f := by
        simp only [List.length_cons] at h
        omega
      have hcq : p.isPrefixOf (c :: (B' ++ y)) = false := by
        cases p with
        | nil => exact absurd rfl hp
        | cons q p' =>
          have hqc : ¬ q = c := fun hqc =>
            hB c (List.mem_cons_self c B') (by rw [hqc]; rfl)
          simp [List.isPrefixOf, hqc]
      rw [List.cons_append]
      show (if p.isPrefixOf (c :: (B' ++ y)) = true then
              r ++ replFuel p r f ((c :: (B' ++ y)).drop p.length)
            else c :: replFuel p r f (B' ++ y)) =
          (c :: B') ++ replFuel p r (f + 1 - (c :: B').length) y
      rw [if_neg (by simp [hcq])]
      rw [ih (fun d hd => hB d (List.mem_cons_of_mem c hd)) f y hlen]
      simp [List.length_cons, Nat.succ_sub_succ]

/-- The length of a placeholder: its key plus the seven frame characters. -/
theorem placeholder_length (s : Str) : (placeholder s).length = s.length + 7 := by
  have h6 : (("$\x7bvar.").data).length = 6 := rfl
  simp only [placeholder, List.length_append, List.length_cons, List.length_nil, h6]
  omega

/-- The scanner passes an occurrence of the placeholder of `a` untouched
when the pattern is the placeholder of a different brace-free key and `a`
is dollar-free and brace-free. -/
theorem replFuel_pass_placeholder (k a r : Str) (hka : k ≠ a)
    (hk : closeBrace ∉ k) (ha : closeBrace ∉ a) (haD : '$' ∉ a) :
    ∀ (fuel : Nat) (y : Str), (placeholder a).length + y.length ≤ fuel →
      replFuel (placeholder k) r fuel (placeholder a ++ y) =
        placeholder a ++ replFuel (placeholder k) r (fuel - (placeholder a).length) y := by
  intro fuel y hlen
  cases fuel with
  | zero =>
    exfalso
    have := placeholder_length a
    omega
  | succ f =>
    have hdol : ("$\x7bvar.").data = '$' :: ("\x7bvar.").data := rfl
    have hshape2 : ∀ z : Str, placeholder a ++ z =
        '$' :: ((("\x7bvar.").data ++ (a ++ [closeBrace])) ++ z) := by
      intro z
      rw [placeholder, hdol]
      simp [List.append_assoc]
    have hB : ∀ c ∈ ("\x7bvar.").data ++ (a ++ [closeBrace]),
        (placeholder k).head? ≠ some c := by
      intro c hc
      have hhead : (placeholder k).head? = some '$' := by
        rw [placeholder, hdol]
        rfl
      rw [hhead]
      intro hsc
      have hcd : c = '$' := by
        injection hsc with h
        exact h.symm
      subst hcd
      rcases List.mem_append.mp hc with h1 | h2
      · exact absurd h1 (by decide)
      · rcases List.mem_append.mp h2 with h3 | h4
        · exact haD h3
        · exact absurd h4 (by decide)
    have hpne : placeholder k ≠ [] := by
      simp [placeholder]
    have h5 : (("\x7bvar.").data).length = 5 := rfl
    have hpa := placeholder_length a
    have hflen : (("\x7bvar.").data ++ (a ++ [closeBrace])).length + y.length ≤ f := by
      rw [hpa] at hlen
      simp only [List.length_append, List.length_cons, List.length_nil, h5]
      omega
    have hfe : f - (("\x7bvar.").data ++ (a ++ [closeBrace])).length =
        f + 1 - (placeholder a).length := by
      simp only [List.length_append, List.length_cons, List.length_nil, h5, hpa]
      omega
    have hnm : ¬ ((placeholder k).isPrefixOf (placeholder a ++ y) = true) :=
      placeholder_nomatch_self k a y hka hk ha
    rw [hshape2 y] at hnm
    rw [hshape2 y]
    show (if (placeholder k).isPrefixOf
            ('$' :: ((("\x7bvar.").data ++ (a ++ [closeBrace])) ++ y)) = true then
            r ++ replFuel (placeholder k) r f
              (('$' :: ((("\x7bvar.").data ++ (a ++ [closeBrace])) ++ y)).drop
                (placeholder k).length)
          else '$' :: replFuel (placeholder k) r f
            ((("\x7bvar.").data ++ (a ++ [closeBrace])) ++ y)) =
        placeholder a ++ replFuel (placeholder k) r (f + 1 - (placeholder a).length) y
    rw [if_neg hnm,
        replFuel_skip (placeholder k) r hpne (("\x7bvar.").data ++ (a ++ [closeBrace])) hB f y hflen,
        hfe, hshape2]

/-- One full `str.replace` pass whose pattern is the placeholder of a
different brace-free, dollar-free key preserves an occurrence of the
placeholder of `a` (also brace-free and dollar-free): no match can start at
or inside that occurrence, and matches before it stay before it. -/
theorem replFuel_keeps (k a r : Str) (hka : k ≠ a) (hk : closeBrace ∉ k)
    (hkD : '$' ∉ k) (ha : closeBrace ∉ a) (haD : '$' ∉ a) :
    ∀ (fuel : Nat) (x y : Str),
      x.length + ((placeholder a).length + y.length) ≤ fuel →
      ∃ x' y', replFuel (placeholder k) r fuel (x ++ (placeholder a ++ y)) =
        x' ++ (placeholder a ++ y') := by
  intro fuel
  induction fuel with
  | zero =>
    intro x y h
    exfalso
    have := placeholder_length a
    omega
  | succ f ih =>
    intro x y h
    cases x with
    | nil =>
      refine ⟨[], replFuel (placeholder k) r (f + 1 - (placeholder a).length) y, ?_⟩
      rw [List.nil_append, List.nil_append]
      exact replFuel_pass_placeholder k a r hka hk ha haD (f + 1) y (by simpa using h)
    | cons c xs =>
      by_cases hm : (placeholder k).isPrefixOf (c :: (xs ++ (placeholder a ++ y))) = true
      · have hple : (placeholder k).length ≤ (c :: xs).length := by
          by_contra hlt
          push_neg at hlt
          have hpre : placeholder k <+: (c :: xs) ++ (placeholder a ++ y) := by
            rw [← List.isPrefixOf_iff_prefix]
            exact hm
          have hxpre : (c :: xs) <+: (c :: xs) ++ (placeholder a ++ y) :=
            List.prefix_append _ _
          have hxp : (c :: xs) <+: placeholder k :=
            List.prefix_of_prefix_length_le hxpre hpre (Nat.le_of_lt hlt)
          obtain ⟨w, hw⟩ := hxp
          have hwpre : w <+: (placeholder a ++ y) := by
            rw [← hw] at hpre
            exact (List.prefix_append_right_inj (c :: xs)).mp hpre
          have hdol : ("$\x7bvar.").data = '$' :: ("\x7bvar.").data := rfl
          have hpk : placeholder k = '$' :: (("\x7bvar.").data ++ (k ++ [closeBrace])) := by
            rw [placeholder, hdol]
            simp [List.append_assoc]
          have hpa2 : placeholder a ++ y =
              '$' :: ((("\x7bvar.").data ++ (a ++ [closeBrace])) ++ y) := by
            rw [placeholder, hdol]
            simp [List.append_assoc]
          cases w with
          | nil =>
            have hlw := congrArg List.length hw
            simp only [List.length_append, List.length_nil] at hlw
            omega
          | cons d w' =>
            have hd : d = '$' := by
              rw [hpa2] at hwpre
              exact (List.cons_prefix_cons.mp hwpre).1
            subst hd
            rw [hpk] at hw
            have hw' : c :: (xs ++ '$' :: w') =
                '$' :: (("\x7bvar.").data ++ (k ++ [closeBrace])) := by
              rw [← hw]
              rfl
            injection hw' with hc htl
            have hdm : '$' ∈ ("\x7bvar.").data ++ (k ++ [closeBrace]) := by
              rw [← htl]
              exact List.mem_append_right xs (List.mem_cons_self '$' w')
            rcases List.mem_append.mp hdm with h1 | h2
            · exact absurd h1 (by decide)
            · rcases List.mem_append.mp h2 with h3 | h4
              · exact hkD h3
              · exact absurd h4 (by decide)
        have hunf : replFuel (placeholder k) r (f + 1) (c :: (xs ++ (placeholder a ++ y))) =
            r ++ replFuel (placeholder k) r f
              ((c :: (xs ++ (placeholder a ++ y))).drop (placeholder k).length) := by
          show (if (placeholder k).isPrefixOf (c :: (xs ++ (placeholder a ++ y))) = true then
                  r ++ replFuel (placeholder k) r f
                    ((c :: (xs ++ (placeholder a ++ y))).drop (placeholder k).length)
                else c :: replFuel (placeholder k) r f (xs ++ (placeholder a ++ y))) = _
          rw [if_pos hm]
        have hdrop : (c :: (xs ++ (placeholder a ++ y))).drop (placeholder k).length =
            ((c :: xs).drop (placeholder k).length) ++ (placeholder a ++ y) := by
          rw [show c :: (xs ++ (placeholder a ++ y)) =
              (c :: xs) ++ (placeholder a ++ y) from rfl]
          exact List.drop_append_of_le_length hple
        have hlen2 : ((c :: xs).drop (placeholder k).length).length +
            ((placeholder a).length + y.length) ≤ f := by
          have hld := List.length_drop (placeholder k).length (c :: xs)
          have hpk1 : 1 ≤ (placeholder k).length := by
            rw [placeholder_length]
            omega
          omega
        obtain ⟨x', y', hxy⟩ := ih ((c :: xs).drop (placeholder k).length) y hlen2
        refine ⟨r ++ x', y', ?_⟩
        rw [show (c :: xs) ++ (placeholder a ++ y) =
            c :: (xs ++ (placeholder a ++ y)) from rfl, hunf, hdrop, hxy,
            List.append_assoc]
      · have hunf : replFuel (placeholder k) r (f + 1) (c :: (xs ++ (placeholder a ++ y))) =
            c :: replFuel (placeholder k) r f (xs ++ (placeholder a ++ y)) := by
          show (if (placeholder k).isPrefixOf (c :: (xs ++ (placeholder a ++ y))) = true then
                  r ++ replFuel (placeholder k) r f
                    ((c :: (xs ++ (placeholder a ++ y))).drop (placeholder k).length)
                else c :: replFuel (placeholder k) r f (xs ++ (placeholder a ++ y))) = _
          rw [if_neg hm]
        obtain ⟨x', y', hxy⟩ := ih xs y (by
          simp only [List.length_cons] at h
          omega)
        refine ⟨c :: x', y', ?_⟩
        rw [show (c :: xs) ++ (placeholder a ++ y) =
            c :: (xs ++ (placeholder a ++ y)) from rfl, hunf, hxy]
        rfl

/-- `str.replace` with the placeholder pattern of a different hygienic key
preserves an infix occurrence of the placeholder of `a`. -/
theorem replaceAll_keeps (k a r : Str) (hka : k ≠ a) (hk : closeBrace ∉ k)
    (hkD : '$' ∉ k) (ha : closeBrace ∉ a) (haD : '$' ∉ a) (s : Str)
    (hin : List.IsInfix (placeholder a) s) :
    List.IsInfix (placeholder a) (replaceAll (placeholder k) r s) := by
  obtain ⟨x, y, hxy⟩ := hin
  have hxy' : x ++ (placeholder a ++ y) = s := by
    rw [← hxy, List.append_assoc]
  rw [replaceAll, if_neg (by simp [show (placeholder k).isEmpty = false from rfl])]
  rw [← hxy']
  obtain ⟨x', y', hres⟩ := replFuel_keeps k a r hka hk hkD ha haD
    (x ++ (placeholder a ++ y)).length x y (by simp [List.length_append])
  exact ⟨x', y', by rw [hres, List.append_assoc]⟩

/-- The substitution loop of `generate_tf` preserves an infix occurrence of
the placeholder of `a` when every merged key is distinct from `a` and, like
`a`, free of `$` and `\x7d`. -/
theorem substituteAll_keeps (a : Str) (ha : closeBrace ∉ a) (haD : '$' ∉ a) :
    ∀ (merged : List (Str × Value)) (tpl : Str),
      (∀ kv ∈ merged, kv.1 ≠ a ∧ '$' ∉ kv.1 ∧ closeBrace ∉ kv.1) →
      List.IsInfix (placeholder a) tpl →
      List.IsInfix (placeholder a) (substituteAll tpl merged) := by
  intro merged
  induction merged with
  | nil =>
    intro tpl _ h
    exact h
  | cons kv rest ih =>
    intro tpl hk h
    have hkv := hk kv (List.mem_cons_self kv rest)
    have hstep := replaceAll_keeps kv.1 a (pyStr kv.2) hkv.1 hkv.2.2 hkv.2.1
      ha haD tpl h
    exact ih (replaceAll (placeholder kv.1) (pyStr kv.2) tpl)
      (fun kv2 h2 => hk kv2 (List.mem_cons_of_mem kv h2)) hstep

/-- C6 (corrected): for a variable with no default, `required=false` and no
caller-supplied value, provided every merged key differs from the variable's
name and neither the variable's name nor any merged key contains `$` or
`\x7d` (so no other placeholder pattern can overlap this one), and every
required defaultless variable is supplied, `generate_tf` succeeds and the
variable's placeholder still occurs verbatim in the output text. -/
theorem generate_tf_optional_placeholder
    (m : TerraformModule) (vars : List (Str × Value)) (v : TerraformVariable)
    (hv : v ∈ m.variables) (hdef : v.default = none) (hreq : v.required = false)
    (hsup : dictHas vars v.name = false)
    (hn1 : '$' ∉ v.name) (hn2 : closeBrace ∉ v.name)
    (hkeys : ∀ kv ∈ mergedTable m vars,
      kv.1 ≠ v.name ∧ '$' ∉ kv.1 ∧ closeBrace ∉ kv.1)
    (hmiss : missingVars m vars = [])
    (hocc : List.IsInfix (placeholder v.name) m.hcl_template) :
    ∃ out, generateTfPure m vars = Except.ok out ∧
      List.IsInfix (placeholder v.name) out := by
  refine ⟨substituteAll m.hcl_template (mergedTable m vars), ?_, ?_⟩
  · simp [generateTfPure, hmiss]
  · exact substituteAll_keeps v.name hn2 hn1 (mergedTable m vars)
      m.hcl_template hkeys hocc

/-- C6 witness: at the sample module, `opt` is optional, defaultless and
unsupplied, and its placeholder survives into the rendered output. -/
theorem generate_tf_optional_placeholder_witness :
    ∃ out, generateTfPure wMod wVarsName = Except.ok out ∧
      List.IsInfix (placeholder (("opt").data)) out :=
  generate_tf_optional_placeholder wMod wVarsName wVarExtra (by decide) rfl rfl
    (by decide) (by decide) (by decide) (by decide) (by decide) (by decide)
